import Mathlib

/-!
Verification of desk-color-bar, `src/main.cpp`.

A shallow embedding of the firmware's control loop, its switch debouncer, the
brightness map and the two colour mappers, followed by theorems about them.

Modelling conventions
* `int` and `long` values are `Int` and no wrap-around is modelled for them:
  three 10-bit readings sum to at most 3069, and `map` computes in `long`.
  `getAveragePotValueChecked` is the sampler with the range of `int` tracked,
  for an arbitrary number of readings.
* `unsigned long` timestamps are `Nat` values below `2^32`; the subtraction
  `millis() - lastDebounceTime` is modelled modulo `2^32` (`usub`).
* `byte` values are `Nat` values below 256.
* `float` values are modelled as exact rationals (`ℚ`), so the rounding error
  of the float operations is not modelled; the conversion `(byte)f` is
  truncation toward zero followed by reduction modulo 256.
* The C math library functions `log` and `pow` are not part of the
  repository; `whiteBalance` takes them as parameters (`LibM`). Theorems that
  need their values assume that the values used are close to the real
  logarithm and power, or that the functions are monotone.
* Global variables become fields of explicit state records that every
  operation receives and returns.
* `delay` and the `DEBUG` serial output (compiled out, `DEBUG` is `false`)
  have no effect on the state and are not modelled.
-/

namespace DeskColorBar

/-! ## Data model -/

/-- The `struct Color` of three `byte` channels. -/
structure Color where
  r : Nat
  g : Nat
  b : Nat
  deriving DecidableEq, Repr

/-- `#define NUM_LEDS 78`. -/
def NUM_LEDS : Nat := 78

/-- The debouncer's global variables `switchState`, `lastSwitchState`,
`lastDebounceTime`. -/
structure DebounceState where
  switchState : Int
  lastSwitchState : Int
  lastDebounceTime : Nat
  deriving DecidableEq, Repr

/-- `unsigned long debounceDelay = 10;` -/
def debounceDelay : Nat := 10

/-- The values of the debouncer's globals at program start:
`int switchState;` (zero-initialised), `lastSwitchState = LOW`,
`lastDebounceTime = 0`. -/
def initDebounce : DebounceState :=
  { switchState := 0, lastSwitchState := 0, lastDebounceTime := 0 }

/-- The globals `prev_color`, `prev_brightness`. -/
structure OutputState where
  prev_color : Color
  prev_brightness : Int
  deriving DecidableEq, Repr

/-- `Color prev_color = {0, 0, 0}; int prev_brightness = -1;` -/
def initOutput : OutputState :=
  { prev_color := { r := 0, g := 0, b := 0 }, prev_brightness := -1 }

/-- A call made on the `strip` object (the output sink). -/
inductive SinkCall where
  | setPixelColor (i : Nat) (r g b : Nat)
  | setBrightness (v : Nat)
  | show_
  deriving DecidableEq, Repr

/-- The C math library functions used by `whiteBalance`. -/
structure LibM where
  log : ℚ → ℚ
  pow : ℚ → ℚ → ℚ

/-! ## Arithmetic helpers -/

/-- Subtraction of two `unsigned long` values (both below `2^32`). -/
def usub (a b : Nat) : Nat := (a + 4294967296 - b) % 4294967296

/-- Truncation of a float toward zero, as in a C float-to-integer cast. -/
def truncQ (q : ℚ) : Int := if 0 ≤ q then ⌊q⌋ else ⌈q⌉

/-- The cast `(byte)f`. -/
def toByte (q : ℚ) : Nat := (truncQ q % 256).toNat

/-- C `fmod`: the remainder of `a / b` with the quotient truncated toward zero. -/
def fmod (a b : ℚ) : ℚ := a - b * (truncQ (a / b) : ℚ)

/-- Arduino's `abs(x)` macro, `((x)>0?(x):-(x))`. -/
def abs (x : ℚ) : ℚ := if x > 0 then x else -x

/-- Modelled from the spec: the Arduino core function `map` is not among the
repository's sources. The spec describes `linearMap(x, [in_min,in_max] ->
[out_min,out_max])` as integer linear interpolation with truncation, that is
`(x - in_min) * (out_max - out_min) / (in_max - in_min) + out_min` in C integer
arithmetic. -/
def map (x in_min in_max out_min out_max : Int) : Int :=
  ((x - in_min) * (out_max - out_min)).tdiv (in_max - in_min) + out_min

/-! ## Operations -/

/-- `getAveragePotValue(numReadings, potPin)`; `analogRead i` is the value the
`i`-th `analogRead(potPin)` of this call returns. -/
def getAveragePotValue (numReadings : Int) (analogRead : Nat → Int) : Int :=
  let total := (List.range numReadings.toNat).foldl (fun total i => total + analogRead i) 0
  let average := total.tdiv numReadings
  average

/-- `debounceSwitch(switchPin)`; `reading` is the value `digitalRead` returns
and `now` the value of `millis()` during the call (both reads of `millis()`
in one call see the same millisecond). Returns the new state and the
function's return value. -/
def debounceSwitch (st : DebounceState) (reading : Int) (now : Nat) : DebounceState × Int :=
  -- if (reading != lastSwitchState) lastDebounceTime = millis();
  let lastDebounceTime := if reading ≠ st.lastSwitchState then now else st.lastDebounceTime
  -- if ((millis() - lastDebounceTime) > debounceDelay) if (reading != switchState) switchState = reading;
  let switchState :=
    if usub now lastDebounceTime > debounceDelay then
      (if reading ≠ st.switchState then reading else st.switchState)
    else st.switchState
  -- lastSwitchState = reading; return switchState;
  ({ switchState := switchState, lastSwitchState := reading,
     lastDebounceTime := lastDebounceTime }, switchState)

/-- `getColorMode(switchPin)`. -/
def getColorMode (st : DebounceState) (reading : Int) (now : Nat) : DebounceState × Bool :=
  let (st1, switch_raw) := debounceSwitch st reading now
  (st1, decide (switch_raw ≠ 0))

/-- `colorWheel(input)`. -/
def colorWheel (input : Int) : Color :=
  let input := if input < 0 then 0 else input
  let input := if input > 1023 then 1023 else input
  let hue : ℚ := ((input : ℚ) / 1023) * 360
  let hue := fmod hue 360
  let saturation : ℚ := 1
  let value : ℚ := 1
  let c := value * saturation
  let x := c * (1 - abs (fmod (hue / 60) 2 - 1))
  let m := value - c
  let primes : ℚ × ℚ × ℚ :=
    if 0 ≤ hue ∧ hue < 60 then (c, x, 0)
    else if 60 ≤ hue ∧ hue < 120 then (x, c, 0)
    else if 120 ≤ hue ∧ hue < 180 then (0, c, x)
    else if 180 ≤ hue ∧ hue < 240 then (0, x, c)
    else if 240 ≤ hue ∧ hue < 300 then (x, 0, c)
    else (c, 0, x)
  { r := toByte ((primes.1 + m) * 255),
    g := toByte ((primes.2.1 + m) * 255),
    b := toByte ((primes.2.2 + m) * 255) }

/-- The clamp `if (f < 0) f = 0; if (f > 255) f = 255;` applied to each
computed channel of `whiteBalance`. -/
def clamp255 (f : ℚ) : ℚ :=
  let f := if f < 0 then 0 else f
  if f > 255 then 255 else f

/-- `whiteBalance(input)`. -/
def whiteBalance (lm : LibM) (input : Int) : Color :=
  let input := if input < 0 then 0 else input
  let input := if input > 1023 then 1023 else input
  let temperature : ℚ := 1000 + ((input : ℚ) / 1023) * (8000 - 1000)
  let temp := temperature / 100
  let red : ℚ :=
    if temp ≤ 66 then 255
    else clamp255 (329.698727446 * lm.pow (temp - 60) (-0.1332047592))
  let green : ℚ :=
    if temp ≤ 66 then clamp255 (99.4708025861 * lm.log temp - 161.1195681661)
    else clamp255 (288.1221695283 * lm.pow (temp - 60) (-0.0755148492))
  let blue : ℚ :=
    if temp ≥ 66 then 255
    else if temp ≤ 19 then 0
    else clamp255 (138.5177312231 * lm.log (temp - 10) - 305.0447927307)
  { r := toByte red, g := toByte green, b := toByte blue }

/-- `areColorsNotEqual(c1, c2)`. -/
def areColorsNotEqual (c1 c2 : Color) : Bool :=
  (c1.r != c2.r) || (c1.g != c2.g) || (c1.b != c2.b)

/-- The whole program state: the debouncer's and the output's globals. -/
structure State where
  deb : DebounceState
  out : OutputState
  deriving DecidableEq, Repr

/-- The state at program start. -/
def initState : State := { deb := initDebounce, out := initOutput }

/-- What one cycle of `loop()` reads from the hardware: the switch pin, the
clock, and the three readings of each potentiometer. -/
structure Inputs where
  switchReading : Int
  now : Nat
  hueReadings : Nat → Int
  brightnessReadings : Nat → Int

/-- The brightness and colour that one cycle computes from the averaged
readings and the mode (lines 238 to 241 of `loop()`). -/
def compute (lm : LibM) (colorMode : Bool) (hue_raw brightness_raw : Int) : Color × Int :=
  let brightness := map brightness_raw 0 1023 64 255
  let color := if colorMode then colorWheel hue_raw else whiteBalance lm hue_raw
  (color, brightness)

/-- The output part of `loop()` (lines 244 to 255): the calls made on the
strip and the new values of `prev_color`, `prev_brightness`. -/
def output (out : OutputState) (color : Color) (brightness : Int) :
    OutputState × List SinkCall :=
  let calls :=
    if areColorsNotEqual out.prev_color color || decide (out.prev_brightness ≠ brightness) then
      (List.range NUM_LEDS).foldr
        (fun i acc => SinkCall.setPixelColor i color.r color.g color.b ::
          SinkCall.setBrightness (brightness % 256).toNat :: acc)
        [SinkCall.show_]
    else []
  ({ prev_color := color, prev_brightness := brightness }, calls)

/-- One cycle of `loop()`: the new state and the calls made on the strip. -/
def loop (lm : LibM) (st : State) (inp : Inputs) : State × List SinkCall :=
  let (deb1, colorMode) := getColorMode st.deb inp.switchReading inp.now
  let hue_raw := getAveragePotValue 3 inp.hueReadings
  let brightness_raw := getAveragePotValue 3 inp.brightnessReadings
  let (color, brightness) := compute lm colorMode hue_raw brightness_raw
  let (out1, calls) := output st.out color brightness
  ({ deb := deb1, out := out1 }, calls)

/-- The number of `strip.show()` calls among the calls of a cycle. -/
def showCount (calls : List SinkCall) : Nat := calls.count SinkCall.show_

/-- A `LibM` used to evaluate the model on concrete inputs: crude rational
stand-ins for `log` and `pow`. -/
def sampleLibM : LibM := { log := fun x => x - 1, pow := fun x _ => x }

/-- The `(color, brightness)` pair that a cycle of `loop()` computes from the
state it starts in and the inputs it reads. -/
def computed (lm : LibM) (st : State) (inp : Inputs) : Color × Int :=
  compute lm (getColorMode st.deb inp.switchReading inp.now).2
    (getAveragePotValue 3 inp.hueReadings) (getAveragePotValue 3 inp.brightnessReadings)

/-- The debouncer state after a sequence of `debounceSwitch` calls, each
given as the pair `(reading, now)`. -/
def finalState (st : DebounceState) (calls : List (Int × Nat)) : DebounceState :=
  calls.foldl (fun st c => (debounceSwitch st c.1 c.2).1) st

/-- The values returned by the calls of a sequence of `debounceSwitch` calls. -/
def returned : DebounceState → List (Int × Nat) → List Int
  | _, [] => []
  | st, c :: cs => (debounceSwitch st c.1 c.2).2 :: returned (debounceSwitch st c.1 c.2).1 cs

/-- The number of positions of a sequence of stable values at which the value
differs from the one before it; `prev` is the value before the first one. -/
def changes : Int → List Int → Nat
  | _, [] => 0
  | prev, v :: vs => (if v ≠ prev then 1 else 0) + changes v vs

/-! ## The hue mapper as the spec words it

The spec describes `hueToRGB` as: map `input` to `hue = (input / 1023) * 360`,
wrap it modulo 360, take `c = 1`, `m = 0`, `x = c * (1 - |((hue/60) mod 2) - 1|)`,
select `(r', g', b')` by the 60-degree sector of the hue, and scale each
channel to an integer. The scaling to an integer is a parameter here, so that
the spec's `round` and the truncation can both be compared with `colorWheel`. -/

/-- The hue in degrees of the spec: `(input / 1023) * 360` wrapped modulo 360. -/
def specHue (input : Int) : ℚ :=
  (input : ℚ) / 1023 * 360 - 360 * (⌊(input : ℚ) / 1023 * 360 / 360⌋ : ℚ)

/-- The spec's `x = c * (1 - |((hue/60) mod 2) - 1|)` with `c = 1`. -/
def specX (hue : ℚ) : ℚ :=
  1 - |(hue / 60 - 2 * (⌊hue / 60 / 2⌋ : ℚ)) - 1|

/-- The spec's `(r', g', b')` triple, selected by the index of the 60-degree
sector that holds the hue. -/
def specPrimes (hue : ℚ) : ℚ × ℚ × ℚ :=
  match ⌊hue / 60⌋ with
  | 0 => (1, specX hue, 0)
  | 1 => (specX hue, 1, 0)
  | 2 => (0, 1, specX hue)
  | 3 => (0, specX hue, 1)
  | 4 => (specX hue, 0, 1)
  | _ => (1, 0, specX hue)

/-- The spec's colour for `input`, each channel scaled by `(channel' + m) * 255`
with `m = 0` and made an integer by `toInt`. -/
def specColor (toInt : ℚ → Int) (input : Int) : Color :=
  { r := (toInt (((specPrimes (specHue input)).1 + 0) * 255)).toNat,
    g := (toInt (((specPrimes (specHue input)).2.1 + 0) * 255)).toNat,
    b := (toInt (((specPrimes (specHue input)).2.2 + 0) * 255)).toNat }

/-- The hue mapper as the spec states it: channels rounded to the nearest
integer. -/
def hueToRGBRound (input : Int) : Color := specColor round input

/-- The hue mapper with the channels truncated instead of rounded. -/
def hueToRGBTrunc (input : Int) : Color := specColor Int.floor input

/-- Sample inputs of one cycle: the switch reads 1 at time 100, every hue
reading is 2 and every brightness reading is 500. -/
def sampleInputs : Inputs :=
  { switchReading := 1, now := 100, hueReadings := fun _ => 2,
    brightnessReadings := fun _ => 500 }

/-! ## Intermediate values of the colour mappers -/

/-- The input of a colour mapper after the clamp
`if (input < 0) input = 0; if (input > 1023) input = 1023;`. -/
def clampInput (input : Int) : Int :=
  let input := if input < 0 then 0 else input
  if input > 1023 then 1023 else input

/-- The hue of `colorWheel` before the modulo (line 99):
`((float)input / 1023.0) * 360.0` for the clamped input. -/
def colorWheelRawHue (input : Int) : ℚ :=
  ((clampInput input : ℚ) / 1023) * 360

/-- The hue that `colorWheel` uses: the raw hue after `fmod(hue, 360.0)`
(line 102). -/
def colorWheelHue (input : Int) : ℚ :=
  fmod (colorWheelRawHue input) 360

/-- The value `x` of `colorWheel` (line 110) as a function of the hue, with
`c = value * saturation = 1 * 1`. -/
def colorWheelX (hue : ℚ) : ℚ :=
  1 * 1 * (1 - abs (fmod (hue / 60) 2 - 1))

/-- The triple `(r_prime, g_prime, b_prime)` that the `k`-th branch of the
if-chain of `colorWheel` (lines 115 to 144) assigns, `k = 0` for the branch
`hue < 60` up to `k = 5` for the final `else`. -/
def sectorPrimes (k : Nat) (hue : ℚ) : ℚ × ℚ × ℚ :=
  match k with
  | 0 => (1 * 1, colorWheelX hue, 0)
  | 1 => (colorWheelX hue, 1 * 1, 0)
  | 2 => (0, 1 * 1, colorWheelX hue)
  | 3 => (0, colorWheelX hue, 1 * 1)
  | 4 => (colorWheelX hue, 0, 1 * 1)
  | _ => (1 * 1, 0, colorWheelX hue)

/-- The index of the branch of the if-chain of `colorWheel` that a hue takes. -/
def sectorIndex (hue : ℚ) : Nat :=
  if 0 ≤ hue ∧ hue < 60 then 0
  else if 60 ≤ hue ∧ hue < 120 then 1
  else if 120 ≤ hue ∧ hue < 180 then 2
  else if 180 ≤ hue ∧ hue < 240 then 3
  else if 240 ≤ hue ∧ hue < 300 then 4
  else 5

/-- The value `temp = temperature / 100.0` of `whiteBalance` (lines 158 to
167) for an input. -/
def whiteBalanceTemp (input : Int) : ℚ :=
  (1000 + ((clampInput input : ℚ) / 1023) * (8000 - 1000)) / 100

/-- A `LibM` that agrees with `sampleLibM` for `log` above 9 and for `pow` with
a base above 6, and returns 0 elsewhere. -/
def sampleLibMOnDomain : LibM :=
  { log := fun x => if 9 < x then x - 1 else 0, pow := fun x _ => if 6 < x then x else 0 }

/-- A `LibM` used to evaluate the model on concrete inputs whose `log` is
increasing and whose `pow` is decreasing in a positive base, as the real
functions are for a negative exponent. -/
def monotoneLibM : LibM := { log := fun x => x - 1, pow := fun x _ => 1 / x }

/-! ## The analog sampler with the range of `int` tracked -/

/-- The statement `total += r` on an `int` whose largest value is `intMax`:
`none` once the sum leaves the range of `int`, which is undefined in C. -/
def addChecked (intMax : Int) (total : Option Int) (r : Int) : Option Int :=
  total.bind (fun t =>
    if -intMax - 1 ≤ t + r ∧ t + r ≤ intMax then some (t + r) else none)

/-- `getAveragePotValue(numReadings, potPin)` with the range of `int` tracked.
`intMax` is `INT_MAX`, 32767 where `int` has 16 bits (AVR boards) and
2147483647 where it has 32. The result is `none` when an addition overflows or
the division is by zero. -/
def getAveragePotValueChecked (intMax : Int) (numReadings : Int) (analogRead : Nat → Int) :
    Option Int :=
  let total := (List.range numReadings.toNat).foldl
    (fun total i => addChecked intMax total (analogRead i)) (some 0)
  total.bind (fun t => if numReadings = 0 then none else some (t.tdiv numReadings))

/-- A `LibM` that returns six-digit decimal values of `ln 10`,
`20^(-0.1332047592)` and `20^(-0.0755148492)` at those arguments, the values
that `whiteBalance` needs at the two ends of its input range; elsewhere it is a
crude stand-in. -/
def refLibM : LibM :=
  { log := fun x => if x = 10 then 2.302585 else x - 1,
    pow := fun x y =>
      if x = 20 ∧ y = -0.1332047592 then 0.670960
      else if x = 20 ∧ y = -0.0755148492 then 0.797541
      else x }

/-! ## Lemmas about the control loop -/

theorem areColorsNotEqual_iff (c1 c2 : Color) :
    areColorsNotEqual c1 c2 = true ↔ c1 ≠ c2 := by
  cases c1; cases c2
  simp only [areColorsNotEqual, Bool.or_eq_true, bne_iff_ne, ne_eq, Color.mk.injEq]
  tauto

theorem count_show_pixels (color : Color) (v : Nat) (l : List Nat) :
    (l.foldr (fun i acc => SinkCall.setPixelColor i color.r color.g color.b ::
        SinkCall.setBrightness v :: acc) [SinkCall.show_]).count SinkCall.show_ = 1 := by
  induction l with
  | nil => rfl
  | cons i l ih => simpa [List.count_cons] using ih

theorem mem_pixels (color : Color) (v : Nat) (l : List Nat) (c : SinkCall)
    (hc : c ∈ l.foldr (fun i acc => SinkCall.setPixelColor i color.r color.g color.b ::
        SinkCall.setBrightness v :: acc) [SinkCall.show_]) :
    c = SinkCall.show_ ∨ c = SinkCall.setBrightness v ∨
      ∃ i, c = SinkCall.setPixelColor i color.r color.g color.b := by
  induction l with
  | nil => left; simpa using hc
  | cons i l ih =>
    simp only [List.foldr_cons, List.mem_cons] at hc
    rcases hc with h | h | h
    · right; right; exact ⟨i, h⟩
    · right; left; exact h
    · exact ih h

theorem output_state (out : OutputState) (color : Color) (brightness : Int) :
    (output out color brightness).1 = { prev_color := color, prev_brightness := brightness } :=
  rfl

theorem output_showCount (out : OutputState) (color : Color) (brightness : Int) :
    showCount (output out color brightness).2 =
      if color ≠ out.prev_color ∨ brightness ≠ out.prev_brightness then 1 else 0 := by
  unfold output showCount
  by_cases h : color ≠ out.prev_color ∨ brightness ≠ out.prev_brightness
  · have h2 : (areColorsNotEqual out.prev_color color ||
        decide (out.prev_brightness ≠ brightness)) = true := by
      rcases h with h | h
      · simp [(areColorsNotEqual_iff _ _).2 (Ne.symm h)]
      · simp [Ne.symm h]
    simp only [h2, if_true, if_pos h]
    exact count_show_pixels _ _ _
  · have h2 : (areColorsNotEqual out.prev_color color ||
        decide (out.prev_brightness ≠ brightness)) = false := by
      push_neg at h
      have : areColorsNotEqual out.prev_color color = false := by
        rw [← Bool.not_eq_true, areColorsNotEqual_iff]; simp [h.1]
      simp [this, h.2]
    rw [if_neg (by rw [h2]; exact Bool.false_ne_true), if_neg h]
    rfl

theorem loop_out (lm : LibM) (st : State) (inp : Inputs) :
    (loop lm st inp).1.out =
      { prev_color := (computed lm st inp).1, prev_brightness := (computed lm st inp).2 } :=
  rfl

theorem loop_calls (lm : LibM) (st : State) (inp : Inputs) :
    (loop lm st inp).2 = (output st.out (computed lm st inp).1 (computed lm st inp).2).2 :=
  rfl

theorem color_ne_iff (c1 c2 : Color) : c1 ≠ c2 ↔ c1.r ≠ c2.r ∨ c1.g ≠ c2.g ∨ c1.b ≠ c2.b := by
  cases c1; cases c2
  simp only [ne_eq, Color.mk.injEq]
  tauto

/-- C1: one cycle of `loop()` calls `strip.show()` exactly once when the
computed colour differs from `prev_color` in some channel or the computed
brightness differs from `prev_brightness`, and not at all when both are equal;
hence a cycle that computes the same pair as the cycle before it makes no
`show()` call. -/
theorem loop_show_once_iff_changed (lm : LibM) (st : State) (inp : Inputs) :
    showCount (loop lm st inp).2 =
        (if (computed lm st inp).1.r ≠ st.out.prev_color.r ∨
            (computed lm st inp).1.g ≠ st.out.prev_color.g ∨
            (computed lm st inp).1.b ≠ st.out.prev_color.b ∨
            (computed lm st inp).2 ≠ st.out.prev_brightness then 1 else 0) ∧
      ∀ inp2 : Inputs, computed lm (loop lm st inp).1 inp2 = computed lm st inp →
        showCount (loop lm (loop lm st inp).1 inp2).2 = 0 := by
  constructor
  · rw [loop_calls, output_showCount]
    congr 1
    rw [color_ne_iff]
    simp only [or_assoc]
  · intro inp2 h
    rw [loop_calls, output_showCount, loop_out, h]
    simp

theorem loop_show_once_iff_changed_witness :
    computed sampleLibM (loop sampleLibM initState sampleInputs).1 sampleInputs =
        computed sampleLibM initState sampleInputs ∧
      showCount (loop sampleLibM (loop sampleLibM initState sampleInputs).1 sampleInputs).2 = 0 :=
  have h : computed sampleLibM (loop sampleLibM initState sampleInputs).1 sampleInputs =
      computed sampleLibM initState sampleInputs := by
    have hm : (getColorMode (loop sampleLibM initState sampleInputs).1.deb 1 100).2 =
        (getColorMode initState.deb 1 100).2 := by decide
    exact congrArg (fun m => compute sampleLibM m (getAveragePotValue 3 sampleInputs.hueReadings)
      (getAveragePotValue 3 sampleInputs.brightnessReadings)) hm
  ⟨h, (loop_show_once_iff_changed sampleLibM initState sampleInputs).2 sampleInputs h⟩

/-- C2: the stored output state `(prev_color, prev_brightness)` after a cycle
of `loop()` differs from its value before the cycle if and only if
`strip.show()` was called in that cycle. -/
theorem loop_state_changes_iff_show (lm : LibM) (st : State) (inp : Inputs) :
    (loop lm st inp).1.out ≠ st.out ↔ SinkCall.show_ ∈ (loop lm st inp).2 := by
  have hcount := output_showCount st.out (computed lm st inp).1 (computed lm st inp).2
  rw [← loop_calls] at hcount
  rw [← List.count_pos_iff, ← showCount, hcount, loop_out]
  obtain ⟨deb, pc, pb⟩ := st
  constructor
  · intro h
    rw [if_pos]
    · exact Nat.one_pos
    · by_contra hne
      push_neg at hne
      apply h
      rw [hne.1, hne.2]
  · intro h hEq
    rw [if_neg] at h
    · exact absurd h (by decide)
    · simp only [OutputState.mk.injEq] at hEq
      simp [hEq.1, hEq.2]

/-! ## The brightness map -/

theorem map_brightness_eq (raw : Int) (h0 : 0 ≤ raw) :
    map raw 0 1023 64 255 = 64 + (raw * 191) / 1023 := by
  unfold map
  have h : (raw - 0) * (255 - 64) = raw * 191 := by ring
  rw [h, Int.tdiv_eq_ediv (by positivity) (by norm_num)]
  norm_num
  ring

theorem getAveragePotValue_three (f : Nat → Int) :
    getAveragePotValue 3 f = (f 0 + f 1 + f 2).tdiv 3 := by
  simp [getAveragePotValue, List.range_succ]

theorem getAveragePotValue_three_bounds (f : Nat → Int)
    (h : ∀ i, i < 3 → 0 ≤ f i ∧ f i ≤ 1023) :
    0 ≤ getAveragePotValue 3 f ∧ getAveragePotValue 3 f ≤ 1023 := by
  have h0 := h 0 (by decide)
  have h1 := h 1 (by decide)
  have h2 := h 2 (by decide)
  rw [getAveragePotValue_three, Int.tdiv_eq_ediv (by omega) (by norm_num)]
  omega

theorem map_brightness_bounds (raw : Int) (h0 : 0 ≤ raw) (h1 : raw ≤ 1023) :
    64 ≤ map raw 0 1023 64 255 ∧ map raw 0 1023 64 255 ≤ 255 := by
  rw [map_brightness_eq raw h0]
  omega

/-- C3: starting from the initial output state (`prev_color = (0,0,0)`,
`prev_brightness = -1`), whatever the mode (any debouncer state and switch
reading, and both values of the mode flag) and the colour readings, a cycle
whose brightness readings lie in [0,1023] computes a brightness different
from the sentinel -1 and calls `strip.show()` exactly once. -/
theorem first_cycle_pushes (lm : LibM) (deb : DebounceState) (inp : Inputs)
    (hb : ∀ i, i < 3 → 0 ≤ inp.brightnessReadings i ∧ inp.brightnessReadings i ≤ 1023) :
    (∀ (colorMode : Bool) (hue_raw : Int),
        ( (compute lm colorMode hue_raw (getAveragePotValue 3 inp.brightnessReadings)).1,
          (compute lm colorMode hue_raw (getAveragePotValue 3 inp.brightnessReadings)).2 ) ≠
          (initOutput.prev_color, initOutput.prev_brightness)) ∧
      showCount (loop lm { deb := deb, out := initOutput } inp).2 = 1 := by
  have hr := getAveragePotValue_three_bounds inp.brightnessReadings hb
  have hm := map_brightness_bounds _ hr.1 hr.2
  constructor
  · intro colorMode hue_raw hEq
    have h2 := congrArg Prod.snd hEq
    simp only [compute, initOutput] at h2
    omega
  · rw [loop_calls, output_showCount, if_pos]
    right
    show map (getAveragePotValue 3 inp.brightnessReadings) 0 1023 64 255 ≠ -1
    omega

theorem first_cycle_pushes_witness :
    (∀ i, i < 3 → 0 ≤ sampleInputs.brightnessReadings i ∧
        sampleInputs.brightnessReadings i ≤ 1023) ∧
      showCount (loop sampleLibM { deb := initDebounce, out := initOutput } sampleInputs).2 = 1 :=
  ⟨fun _ _ => (by decide : (0 : Int) ≤ 500 ∧ (500 : Int) ≤ 1023),
    (first_cycle_pushes sampleLibM initDebounce sampleInputs
      (fun _ _ => (by decide : (0 : Int) ≤ 500 ∧ (500 : Int) ≤ 1023))).2⟩

/-- C7: the brightness map of `loop()`, `map(raw, 0, 1023, 64, 255)`, sends 0
to 64 and 1023 to 255 and is monotonically non-decreasing on [0,1023]. -/
theorem map_brightness_endpoints_mono :
    map 0 0 1023 64 255 = 64 ∧ map 1023 0 1023 64 255 = 255 ∧
      ∀ a b : Int, 0 ≤ a → a ≤ b → b ≤ 1023 →
        map a 0 1023 64 255 ≤ map b 0 1023 64 255 := by
  refine ⟨by decide, by decide, ?_⟩
  intro a b ha hab _
  rw [map_brightness_eq a ha, map_brightness_eq b (le_trans ha hab)]
  omega

theorem map_brightness_endpoints_mono_witness :
    (0 : Int) ≤ 100 ∧ (100 : Int) ≤ 900 ∧ (900 : Int) ≤ 1023 ∧
      map 100 0 1023 64 255 ≤ map 900 0 1023 64 255 :=
  ⟨by decide, by decide, by decide,
    map_brightness_endpoints_mono.2.2 100 900 (by decide) (by decide) (by decide)⟩

/-- C8: for every averaged brightness reading `raw` in [0,1023] the brightness
that `loop()` computes is `64 + trunc(raw * 191 / 1023)` and lies in [64,255];
and in a cycle whose brightness readings lie in [0,1023] every value passed to
`strip.setBrightness` lies in [64,255]. -/
theorem loop_brightness_floor (lm : LibM) :
    (∀ (colorMode : Bool) (hue_raw raw : Int), 0 ≤ raw → raw ≤ 1023 →
        (compute lm colorMode hue_raw raw).2 = 64 + (raw * 191).tdiv 1023 ∧
        64 ≤ (compute lm colorMode hue_raw raw).2 ∧ (compute lm colorMode hue_raw raw).2 ≤ 255) ∧
      ∀ (st : State) (inp : Inputs),
        (∀ i, i < 3 → 0 ≤ inp.brightnessReadings i ∧ inp.brightnessReadings i ≤ 1023) →
        ∀ v, SinkCall.setBrightness v ∈ (loop lm st inp).2 → 64 ≤ v ∧ v ≤ 255 := by
  constructor
  · intro colorMode hue_raw raw h0 h1
    have hb := map_brightness_bounds raw h0 h1
    refine ⟨?_, hb.1, hb.2⟩
    show map raw 0 1023 64 255 = _
    rw [map_brightness_eq raw h0, Int.tdiv_eq_ediv (by positivity) (by norm_num)]
  · intro st inp hb v hv
    have hr := getAveragePotValue_three_bounds inp.brightnessReadings hb
    have hm := map_brightness_bounds _ hr.1 hr.2
    rw [loop_calls] at hv
    unfold output at hv
    simp only at hv
    split at hv
    · rcases mem_pixels _ _ _ _ hv with h | h | ⟨i, h⟩
      · cases h
      · simp only [SinkCall.setBrightness.injEq] at h
        have hc : (computed lm st inp).2 =
            map (getAveragePotValue 3 inp.brightnessReadings) 0 1023 64 255 := rfl
        rw [hc] at h
        omega
      · cases h
    · cases hv

theorem loop_brightness_floor_witness :
    (0 : Int) ≤ 500 ∧ (500 : Int) ≤ 1023 ∧
      (compute sampleLibM true 2 500).2 = 64 + ((500 : Int) * 191).tdiv 1023 :=
  ⟨by decide, by decide,
    ((loop_brightness_floor sampleLibM).1 true 2 500 (by decide) (by decide)).1⟩

/-! ## The debouncer -/

theorem usub_of_le (a b : Nat) (hab : b ≤ a) (ha : a < 4294967296) : usub a b = a - b := by
  unfold usub; omega

theorem debounceSwitch_snd (st : DebounceState) (r : Int) (t : Nat) :
    (debounceSwitch st r t).2 = (debounceSwitch st r t).1.switchState := rfl

theorem debounceSwitch_lastSwitchState (st : DebounceState) (r : Int) (t : Nat) :
    (debounceSwitch st r t).1.lastSwitchState = r := rfl

/-- A call whose reading equals the stable value leaves the stable value. -/
theorem debounceSwitch_same (st : DebounceState) (t : Nat) :
    (debounceSwitch st st.switchState t).1.switchState = st.switchState := by
  simp [debounceSwitch]

/-- A call whose reading differs from the previous reading restarts the timer
and leaves the stable value. -/
theorem debounceSwitch_reset (st : DebounceState) (r : Int) (t : Nat)
    (hr : r ≠ st.lastSwitchState) :
    (debounceSwitch st r t).1 =
      { switchState := st.switchState, lastSwitchState := r, lastDebounceTime := t } := by
  simp [debounceSwitch, hr, usub, debounceDelay]

/-- A call whose reading repeats the previous reading keeps the timer; the
stable value becomes the reading when more than `debounceDelay` has elapsed. -/
theorem debounceSwitch_hold (st : DebounceState) (t : Nat)
    (hle : st.lastDebounceTime ≤ t) (ht : t < 4294967296) :
    (debounceSwitch st st.lastSwitchState t).1 =
      { switchState := if t - st.lastDebounceTime > 10 then st.lastSwitchState
          else st.switchState,
        lastSwitchState := st.lastSwitchState, lastDebounceTime := st.lastDebounceTime } := by
  simp only [debounceSwitch, ne_eq, not_true_eq_false, if_false, usub_of_le t _ hle ht,
    debounceDelay, ite_not]
  congr 1
  split_ifs <;> simp_all

theorem pulse_step (s : Int) (lo T : Nat) (st : DebounceState) (hsw : st.switchState = s)
    (hinv : st.lastSwitchState ≠ s → lo ≤ st.lastDebounceTime ∧ st.lastDebounceTime ≤ T)
    (r : Int) (now : Nat) (hT : T ≤ now) (hlt : now < 4294967296)
    (hp : r ≠ s → lo ≤ now ∧ now < lo + 10) :
    (debounceSwitch st r now).1.switchState = s ∧
      ((debounceSwitch st r now).1.lastSwitchState ≠ s →
        lo ≤ (debounceSwitch st r now).1.lastDebounceTime ∧
        (debounceSwitch st r now).1.lastDebounceTime ≤ now) := by
  by_cases hr : r = st.lastSwitchState
  · subst hr
    by_cases hs : st.lastSwitchState = s
    · have e : st.lastSwitchState = st.switchState := hs.trans hsw.symm
      rw [e, debounceSwitch_same]
      exact ⟨hsw, fun hne => absurd hsw hne⟩
    · have hi := hinv hs
      have hpp := hp hs
      rw [debounceSwitch_hold st now (by omega) hlt]
      simp only
      rw [if_neg (by omega)]
      exact ⟨hsw, fun _ => ⟨hi.1, by omega⟩⟩
  · rw [debounceSwitch_reset st r now hr]
    simp only
    exact ⟨hsw, fun hne => ⟨(hp hne).1, le_refl _⟩⟩

theorem pulse_run (s : Int) (lo : Nat) (calls : List (Int × Nat)) :
    ∀ (T : Nat) (st : DebounceState), st.switchState = s →
      (st.lastSwitchState ≠ s → lo ≤ st.lastDebounceTime ∧ st.lastDebounceTime ≤ T) →
      (∀ c ∈ calls, T ≤ c.2) →
      (calls.map Prod.snd).Pairwise (· ≤ ·) →
      (∀ c ∈ calls, c.2 < 4294967296) →
      (∀ c ∈ calls, c.1 ≠ s → lo ≤ c.2 ∧ c.2 < lo + 10) →
      ∀ x ∈ returned st calls, x = s := by
  induction calls with
  | nil => intro T st _ _ _ _ _ _ x hx; simp [returned] at hx
  | cons c cs ih =>
    intro T st hsw hinv hT hsorted hlt hp x hx
    have hstep := pulse_step s lo T st hsw hinv c.1 c.2 (hT c (List.mem_cons_self _ _))
      (hlt c (List.mem_cons_self _ _)) (hp c (List.mem_cons_self _ _))
    simp only [returned, List.mem_cons] at hx
    rcases hx with hx | hx
    · rw [hx, debounceSwitch_snd]; exact hstep.1
    · simp only [List.map_cons, List.pairwise_cons, List.mem_map, forall_exists_index,
        and_imp, forall_apply_eq_imp_iff₂] at hsorted
      exact ih c.2 _ hstep.1 hstep.2 (fun d hd => hsorted.1 d hd) hsorted.2
        (fun d hd => hlt d (List.mem_cons_of_mem _ hd))
        (fun d hd => hp d (List.mem_cons_of_mem _ hd)) x hx

/-- C5: from a debouncer state settled on `s` (`switchState = lastSwitchState
= s`), for every sequence of `debounceSwitch` calls with non-decreasing
timestamps in which the reading differs from `s` only in calls whose
timestamps lie in one interval `[lo, lo + 10)` shorter than 10 ms, every call
of the sequence returns `s`. -/
theorem transient_pulse_ignored (s : Int) (st : DebounceState)
    (hsw : st.switchState = s) (hlast : st.lastSwitchState = s)
    (calls : List (Int × Nat))
    (hsorted : (calls.map Prod.snd).Pairwise (· ≤ ·))
    (hlt : ∀ c ∈ calls, c.2 < 4294967296)
    (lo : Nat) (hp : ∀ c ∈ calls, c.1 ≠ s → lo ≤ c.2 ∧ c.2 < lo + 10) :
    ∀ x ∈ returned st calls, x = s :=
  pulse_run s lo calls 0 st hsw (fun hne => absurd hlast hne) (fun _ _ => Nat.zero_le _)
    hsorted hlt hp

theorem transient_pulse_ignored_witness :
    returned { switchState := 0, lastSwitchState := 0, lastDebounceTime := 0 }
        [(0, 50), (1, 100), (0, 103), (1, 105), (1, 109), (0, 112), (0, 200)] =
      List.replicate 7 0 :=
  List.eq_replicate_iff.2 ⟨by decide,
    transient_pulse_ignored 0 { switchState := 0, lastSwitchState := 0, lastDebounceTime := 0 }
      rfl rfl [(0, 50), (1, 100), (0, 103), (1, 105), (1, 109), (0, 112), (0, 200)]
      (by decide) (by decide) 100 (by decide)⟩


theorem returned_settled_run (s : Int) (rest : List (Int × Nat)) (pre : List (Int × Nat)) :
    ∀ st : DebounceState, st.switchState = s → st.lastSwitchState = s →
      (∀ c ∈ pre, c.1 = s) →
      ∃ st1 : DebounceState, st1.switchState = s ∧ st1.lastSwitchState = s ∧
        returned st (pre ++ rest) = pre.map (fun _ => s) ++ returned st1 rest := by
  induction pre with
  | nil => intro st hsw hlast _; exact ⟨st, hsw, hlast, rfl⟩
  | cons c cs ih =>
    intro st hsw hlast hpre
    have hc : c.1 = st.switchState := (hpre c (List.mem_cons_self _ _)).trans hsw.symm
    have h1 : (debounceSwitch st c.1 c.2).1.switchState = s := by
      rw [hc, debounceSwitch_same, hsw]
    have h2 : (debounceSwitch st c.1 c.2).1.lastSwitchState = s := by
      rw [debounceSwitch_lastSwitchState]; exact hpre c (List.mem_cons_self _ _)
    obtain ⟨st1, e1, e2, e3⟩ := ih _ h1 h2 (fun d hd => hpre d (List.mem_cons_of_mem _ hd))
    refine ⟨st1, e1, e2, ?_⟩
    show (debounceSwitch st c.1 c.2).2 :: returned (debounceSwitch st c.1 c.2).1 (cs ++ rest) =
      s :: (cs.map (fun _ => s) ++ returned st1 rest)
    rw [e3, debounceSwitch_snd, h1]

theorem returned_hold_run (s v : Int) (t0 : Nat) (ts : List Nat) :
    ∀ (tprev : Nat) (st : DebounceState), st.lastSwitchState = v → st.lastDebounceTime = t0 →
      st.switchState = (if tprev - t0 > 10 then v else s) → t0 ≤ tprev →
      (∀ t ∈ ts, tprev ≤ t) → ts.Pairwise (· ≤ ·) → (∀ t ∈ ts, t < 4294967296) →
      returned st (ts.map (fun t => (v, t))) =
        ts.map (fun t => if t - t0 > 10 then v else s) := by
  induction ts with
  | nil => intro _ _ _ _ _ _ _ _ _; rfl
  | cons t ts ih =>
    intro tprev st hlast htime hsw h0 hprev hsorted hlt
    have htp : tprev ≤ t := hprev t (List.mem_cons_self _ _)
    have ht : t < 4294967296 := hlt t (List.mem_cons_self _ _)
    have hstep : (debounceSwitch st v t).1 =
        { switchState := if t - t0 > 10 then v else s,
          lastSwitchState := v, lastDebounceTime := t0 } := by
      have h := debounceSwitch_hold st t (by omega) ht
      rw [hlast, htime, hsw] at h
      rw [h]
      congr 1
      split_ifs <;> first | rfl | omega
    rw [List.pairwise_cons] at hsorted
    simp only [List.map_cons, returned, debounceSwitch_snd, hstep]
    rw [ih t _ rfl rfl rfl (by omega) hsorted.1 hsorted.2
      (fun u hu => hlt u (List.mem_cons_of_mem _ hu))]

theorem changes_const_run (s : Int) (l : List Int) {α : Type} (pre : List α) :
    changes s (pre.map (fun _ => s) ++ l) = changes s l := by
  induction pre with
  | nil => rfl
  | cons c cs ih => simpa [changes] using ih

theorem changes_all_eq (v : Int) (l : List Int) (h : ∀ x ∈ l, x = v) : changes v l = 0 := by
  induction l with
  | nil => rfl
  | cons x xs ih =>
    have hx : x = v := h x (List.mem_cons_self _ _)
    subst hx
    simpa [changes] using ih (fun y hy => h y (List.mem_cons_of_mem _ hy))

theorem changes_threshold (s v : Int) (hv : v ≠ s) (t0 : Nat) (ts : List Nat)
    (hsorted : ts.Pairwise (· ≤ ·)) :
    changes s (ts.map (fun t => if t - t0 > 10 then v else s)) =
      if ∃ t ∈ ts, t - t0 > 10 then 1 else 0 := by
  induction ts with
  | nil => simp [changes]
  | cons t ts ih =>
    rw [List.pairwise_cons] at hsorted
    by_cases ht : t - t0 > 10
    · have hall : ∀ x ∈ ts.map (fun t => if t - t0 > 10 then v else s), x = v := by
        intro x hx
        obtain ⟨u, hu, rfl⟩ := List.mem_map.1 hx
        have := hsorted.1 u hu
        rw [if_pos (by omega)]
      have hex : ∃ u ∈ t :: ts, u - t0 > 10 := ⟨t, List.mem_cons_self _ _, ht⟩
      simp only [List.map_cons, changes, if_pos ht, if_pos hex, changes_all_eq v _ hall,
        if_pos hv]
    · have hiff : (∃ u ∈ t :: ts, u - t0 > 10) ↔ ∃ u ∈ ts, u - t0 > 10 := by
        simp [ht]
      simp only [List.map_cons, changes, if_neg ht, ih hsorted.2, hiff, ne_eq,
        not_true_eq_false, if_false, Nat.zero_add]

/-- C4 (amended): from a debouncer state settled on `s`, for a sequence of
`debounceSwitch` calls that reads `s` in its first calls, reads `v ≠ s` at time
`t0` and reads `v` in every later call, with non-decreasing timestamps from
`t0` on: every call before `t0` returns `s`, and the call at time `now ≥ t0`
returns `v` exactly when `now - t0 > 10` and `s` otherwise (so the stable value
flips at the first call with `now - t0 > 10` ms); the stable value changes
exactly once over the sequence when some call has `now - t0 > 10`, and not at
all otherwise. -/
theorem sustained_change_flips_once (s v : Int) (hv : v ≠ s) (st : DebounceState)
    (hsw : st.switchState = s) (hlast : st.lastSwitchState = s)
    (pre : List (Int × Nat)) (hpre : ∀ c ∈ pre, c.1 = s)
    (t0 : Nat) (post : List Nat)
    (hsorted : (t0 :: post).Pairwise (· ≤ ·)) (hlt : ∀ t ∈ t0 :: post, t < 4294967296) :
    returned st (pre ++ (v, t0) :: post.map (fun t => (v, t))) =
        pre.map (fun _ => s) ++ (t0 :: post).map (fun t => if t - t0 > 10 then v else s) ∧
      changes s (returned st (pre ++ (v, t0) :: post.map (fun t => (v, t)))) =
        if ∃ t ∈ post, t - t0 > 10 then 1 else 0 := by
  obtain ⟨st1, h1, h2, h3⟩ := returned_settled_run s
    ((v, t0) :: post.map (fun t => (v, t))) pre st hsw hlast hpre
  have hrun : returned st1 ((v, t0) :: post.map (fun t => (v, t))) =
      (t0 :: post).map (fun t => if t - t0 > 10 then v else s) := by
    have hr : v ≠ st1.lastSwitchState := by rw [h2]; exact hv
    rw [List.pairwise_cons] at hsorted
    simp only [returned, debounceSwitch_snd, debounceSwitch_reset st1 v t0 hr, List.map_cons,
      h1]
    rw [returned_hold_run s v t0 post t0 _ rfl rfl (by simp [h1]) (le_refl _) hsorted.1
      hsorted.2 (fun u hu => hlt u (List.mem_cons_of_mem _ hu))]
    simp
  have hret := h3.trans (congrArg (fun l => pre.map (fun _ => s) ++ l) hrun)
  refine ⟨hret, ?_⟩
  rw [hret, changes_const_run, changes_threshold s v hv t0 (t0 :: post) hsorted]
  congr 1
  simp

theorem sustained_change_flips_once_witness :
    returned { switchState := 0, lastSwitchState := 0, lastDebounceTime := 7 }
        ([(0, 50), (0, 90)] ++ (1, 100) :: [105, 110, 111, 150].map (fun t => (1, t))) =
        [(0, 50), (0, 90)].map (fun _ => (0 : Int)) ++
          (100 :: [105, 110, 111, 150]).map (fun t => if t - 100 > 10 then (1 : Int) else 0) ∧
      changes 0 (returned { switchState := 0, lastSwitchState := 0, lastDebounceTime := 7 }
        ([(0, 50), (0, 90)] ++ (1, 100) :: [105, 110, 111, 150].map (fun t => (1, t)))) =
        if ∃ t ∈ [105, 110, 111, 150], t - 100 > 10 then 1 else 0 :=
  sustained_change_flips_once 0 1 (by decide)
    { switchState := 0, lastSwitchState := 0, lastDebounceTime := 7 } rfl rfl
    [(0, 50), (0, 90)] (by decide) 100 [105, 110, 111, 150] (by decide) (by decide)

/-- C4 as stated fails: from the settled initial state the reading becomes 1
at `t0 = 100` and is still 1 at `now = 110`, where `now - t0 >= 10`, yet that
call returns the old stable value 0 and the stable value has not changed. -/
theorem sustained_change_not_at_ten :
    initDebounce.switchState = 0 ∧ initDebounce.lastSwitchState = 0 ∧
      110 - 100 ≥ debounceDelay ∧
      returned initDebounce [(1, 100), (1, 110)] = [0, 0] ∧
      changes 0 (returned initDebounce [(1, 100), (1, 110)]) = 0 := by
  decide


theorem finalState_snoc (st : DebounceState) (l : List (Int × Nat)) (c : Int × Nat) :
    finalState st (l ++ [c]) = (debounceSwitch (finalState st l) c.1 c.2).1 := by
  simp [finalState, List.foldl_append]

/-- After any sequence of calls from the initial state, either every reading
so far was `LOW` and the stable value is still 0, or the timer holds the time
of the call that started the current run of equal readings. -/
theorem run_invariant (pre : List (Int × Nat)) :
    ((finalState initDebounce pre).switchState = 0 ∧
        (finalState initDebounce pre).lastSwitchState = 0 ∧ ∀ x ∈ pre, x.1 = 0) ∨
      ∃ p x q, pre = p ++ x :: q ∧ x.1 = (finalState initDebounce pre).lastSwitchState ∧
        (∀ y ∈ q, y.1 = (finalState initDebounce pre).lastSwitchState) ∧
        (finalState initDebounce pre).lastDebounceTime = x.2 := by
  induction pre using List.reverseRecOn with
  | nil => left; exact ⟨rfl, rfl, fun x hx => absurd hx (List.not_mem_nil x)⟩
  | append_singleton l c ih =>
    rw [finalState_snoc]
    by_cases hr : c.1 = (finalState initDebounce l).lastSwitchState
    · rcases ih with ⟨h1, h2, h3⟩ | ⟨p, x, q, hl, hx, hq, ht⟩
      · left
        have hc : c.1 = (finalState initDebounce l).switchState := by rw [hr, h2, h1]
        refine ⟨?_, ?_, ?_⟩
        · rw [hc, debounceSwitch_same, h1]
        · rw [debounceSwitch_lastSwitchState, hr, h2]
        · intro y hy
          rcases List.mem_append.1 hy with hy | hy
          · exact h3 y hy
          · rw [List.mem_singleton.1 hy, hr, h2]
      · right
        refine ⟨p, x, q ++ [c], by rw [hl]; simp, ?_, ?_, ?_⟩
        · rw [debounceSwitch_lastSwitchState, hr]; exact hx
        · intro y hy
          rw [debounceSwitch_lastSwitchState, hr]
          rcases List.mem_append.1 hy with hy | hy
          · exact hq y hy
          · rw [List.mem_singleton.1 hy, hr]
        · rw [← ht, hr]
          simp [debounceSwitch]
    · right
      refine ⟨l, c, [], rfl, ?_, ?_, ?_⟩
      · rw [debounceSwitch_lastSwitchState]
      · intro y hy; exact absurd hy (List.not_mem_nil y)
      · rw [debounceSwitch_reset _ _ _ hr]

/-- C6: in a sequence of `debounceSwitch` calls with non-decreasing timestamps
that starts from the initial state, whenever a call `c` at time `now` changes
the stable value to `v`, the calls before it contain a call `x` at a time `t`
with `t + 10 ≤ now` such that the reading was `v` in `x`, in every call
between `x` and `c`, and in `c`. -/
theorem stable_change_needs_quiet_period (pre : List (Int × Nat)) (c : Int × Nat)
    (hsorted : ((pre ++ [c]).map Prod.snd).Pairwise (· ≤ ·))
    (hlt : ∀ d ∈ pre ++ [c], d.2 < 4294967296)
    (hchg : (debounceSwitch (finalState initDebounce pre) c.1 c.2).1.switchState ≠
      (finalState initDebounce pre).switchState) :
    ∃ p x q, pre = p ++ x :: q ∧ x.2 + 10 ≤ c.2 ∧
      x.1 = (debounceSwitch (finalState initDebounce pre) c.1 c.2).1.switchState ∧
      (∀ y ∈ q, y.1 = (debounceSwitch (finalState initDebounce pre) c.1 c.2).1.switchState) ∧
      c.1 = (debounceSwitch (finalState initDebounce pre) c.1 c.2).1.switchState := by
  have hc : c.2 < 4294967296 := hlt c (by simp)
  by_cases hr : c.1 = (finalState initDebounce pre).lastSwitchState
  · rcases run_invariant pre with ⟨h1, h2, _⟩ | ⟨p, x, q, hl, hx, hq, ht⟩
    · exfalso
      apply hchg
      have hcs : c.1 = (finalState initDebounce pre).switchState := by rw [hr, h2, h1]
      rw [hcs, debounceSwitch_same]
    · have hle : x.2 ≤ c.2 := by
        rw [List.map_append, List.pairwise_append] at hsorted
        apply hsorted.2.2 x.2 _ c.2 (by simp)
        rw [hl]
        simp
      rw [hr] at hchg ⊢
      rw [debounceSwitch_hold _ c.2 (by omega) hc] at hchg ⊢
      simp only [ht] at hchg ⊢
      by_cases hgt : c.2 - x.2 > 10
      · rw [if_pos hgt]
        exact ⟨p, x, q, hl, by omega, hx, hq, rfl⟩
      · rw [if_neg hgt] at hchg
        exact absurd rfl hchg
  · exfalso
    apply hchg
    rw [debounceSwitch_reset _ _ _ hr]

theorem stable_change_needs_quiet_period_witness :
    ∃ p x q, [((0 : Int), 5), (1, 100), (1, 105)] = p ++ x :: q ∧ x.2 + 10 ≤ 111 ∧
      x.1 = (debounceSwitch (finalState initDebounce [(0, 5), (1, 100), (1, 105)])
        1 111).1.switchState ∧
      (∀ y ∈ q, y.1 = (debounceSwitch (finalState initDebounce [(0, 5), (1, 100), (1, 105)])
        1 111).1.switchState) ∧
      (1 : Int) = (debounceSwitch (finalState initDebounce [(0, 5), (1, 100), (1, 105)])
        1 111).1.switchState :=
  stable_change_needs_quiet_period [(0, 5), (1, 100), (1, 105)] (1, 111)
    (by decide) (by decide) (by decide)


/-! ## The colour mappers -/


/-- C10: both colour mappers clamp their input: an input below 0 gives the
colour of input 0 and an input above 1023 gives the colour of input 1023. -/
theorem mappers_clamp_input (lm : LibM) (input : Int) :
    (input < 0 → colorWheel input = colorWheel 0 ∧ whiteBalance lm input = whiteBalance lm 0) ∧
      (input > 1023 →
        colorWheel input = colorWheel 1023 ∧ whiteBalance lm input = whiteBalance lm 1023) := by
  constructor
  · intro h
    constructor
    · unfold colorWheel
      simp only [h, if_true, lt_irrefl, if_false]
    · unfold whiteBalance
      simp only [h, if_true, lt_irrefl, if_false]
  · intro h
    have h0 : ¬ input < 0 := by omega
    constructor
    · unfold colorWheel
      simp only [h0, h, if_true, lt_irrefl, if_false, gt_iff_lt]
      norm_num
    · unfold whiteBalance
      simp only [h0, h, if_true, lt_irrefl, if_false, gt_iff_lt]
      norm_num

theorem mappers_clamp_input_witness :
    ((-5 : Int) < 0 ∧ colorWheel (-5) = colorWheel 0 ∧
        whiteBalance sampleLibM (-5) = whiteBalance sampleLibM 0) ∧
      ((2000 : Int) > 1023 ∧ colorWheel 2000 = colorWheel 1023 ∧
        whiteBalance sampleLibM 2000 = whiteBalance sampleLibM 1023) :=
  ⟨⟨by decide, (mappers_clamp_input sampleLibM (-5)).1 (by decide)⟩,
    ⟨by decide, (mappers_clamp_input sampleLibM 2000).2 (by decide)⟩⟩


theorem truncQ_of_nonneg (q : ℚ) (h : 0 ≤ q) : truncQ q = ⌊q⌋ := if_pos h

theorem fmod_of_nonneg (a b : ℚ) (h : 0 ≤ a / b) : fmod a b = a - b * (⌊a / b⌋ : ℚ) := by
  unfold fmod
  rw [truncQ_of_nonneg _ h]

theorem abs_eq_abs (y : ℚ) : DeskColorBar.abs y = |y| := by
  unfold DeskColorBar.abs
  split_ifs with h
  · exact (abs_of_pos h).symm
  · exact (abs_of_nonpos (not_lt.1 h)).symm

theorem toByte_of_range (q : ℚ) (h0 : 0 ≤ q) (h1 : q < 256) : toByte q = ⌊q⌋.toNat := by
  unfold toByte
  rw [truncQ_of_nonneg q h0]
  have hf0 : 0 ≤ ⌊q⌋ := Int.floor_nonneg.2 h0
  have hf1 : ⌊q⌋ < 256 := Int.floor_lt.2 (by exact_mod_cast h1)
  rw [Int.emod_eq_of_lt hf0 hf1]

theorem hue_eq_specHue (input : Int) (h0 : 0 ≤ input) :
    fmod ((input : ℚ) / 1023 * 360) 360 = specHue input := by
  have hq : (0 : ℚ) ≤ input := by exact_mod_cast h0
  rw [fmod_of_nonneg _ _ (by positivity)]
  rfl

theorem specHue_range (input : Int) : 0 ≤ specHue input ∧ specHue input < 360 := by
  unfold specHue
  have e : (input : ℚ) / 1023 * 360 / 360 = (input : ℚ) / 1023 := by ring
  rw [e]
  have hlo := Int.floor_le ((input : ℚ) / 1023)
  have hhi := Int.lt_floor_add_one ((input : ℚ) / 1023)
  constructor <;> nlinarith

theorem specX_range (H : ℚ) : 0 ≤ specX H ∧ specX H ≤ 1 := by
  unfold specX
  have hlo := Int.floor_le (H / 60 / 2)
  have hhi := Int.lt_floor_add_one (H / 60 / 2)
  have habs : |H / 60 - 2 * (⌊H / 60 / 2⌋ : ℚ) - 1| ≤ 1 := by
    rw [abs_le]; constructor <;> linarith
  have hnn := abs_nonneg (H / 60 - 2 * (⌊H / 60 / 2⌋ : ℚ) - 1)
  constructor <;> linarith

theorem x_eq_specX (H : ℚ) (h0 : 0 ≤ H) :
    1 * 1 * (1 - DeskColorBar.abs (fmod (H / 60) 2 - 1)) = specX H := by
  rw [fmod_of_nonneg _ _ (by positivity), abs_eq_abs]
  unfold specX
  ring

theorem specPrimes_range (H : ℚ) :
    (0 ≤ (specPrimes H).1 ∧ (specPrimes H).1 ≤ 1) ∧
      (0 ≤ (specPrimes H).2.1 ∧ (specPrimes H).2.1 ≤ 1) ∧
      (0 ≤ (specPrimes H).2.2 ∧ (specPrimes H).2.2 ≤ 1) := by
  have hx := specX_range H
  unfold specPrimes
  split <;> simp [hx.1, hx.2]

theorem primes_eq_specPrimes (H : ℚ) (h0 : 0 ≤ H) (h1 : H < 360) :
    (if 0 ≤ H ∧ H < 60 then
        ((1 : ℚ) * 1, 1 * 1 * (1 - DeskColorBar.abs (fmod (H / 60) 2 - 1)), (0 : ℚ))
      else if 60 ≤ H ∧ H < 120 then
        (1 * 1 * (1 - DeskColorBar.abs (fmod (H / 60) 2 - 1)), 1 * 1, 0)
      else if 120 ≤ H ∧ H < 180 then
        (0, 1 * 1, 1 * 1 * (1 - DeskColorBar.abs (fmod (H / 60) 2 - 1)))
      else if 180 ≤ H ∧ H < 240 then
        (0, 1 * 1 * (1 - DeskColorBar.abs (fmod (H / 60) 2 - 1)), 1 * 1)
      else if 240 ≤ H ∧ H < 300 then
        (1 * 1 * (1 - DeskColorBar.abs (fmod (H / 60) 2 - 1)), 0, 1 * 1)
      else (1 * 1, 0, 1 * 1 * (1 - DeskColorBar.abs (fmod (H / 60) 2 - 1)))) =
      specPrimes H := by
  rw [x_eq_specX H h0]
  simp only [mul_one]
  unfold specPrimes
  obtain ⟨k, hk⟩ : ∃ k : Int, ⌊H / 60⌋ = k := ⟨_, rfl⟩
  have hlo : 60 * (k : ℚ) ≤ H := by
    have := Int.floor_le (H / 60); rw [hk] at this; linarith
  have hhi : H < 60 * (k : ℚ) + 60 := by
    have := Int.lt_floor_add_one (H / 60); rw [hk] at this; linarith
  have hk0 : 0 ≤ k := by
    rw [← hk]; exact Int.floor_nonneg.2 (by positivity)
  have hk5 : k ≤ 5 := by
    have : (k : ℚ) < 6 := by linarith
    have : k < 6 := by exact_mod_cast this
    omega
  rw [hk]
  interval_cases k <;> norm_num at hlo hhi
  · rw [if_pos ⟨h0, hhi⟩]
    rfl
  · rw [if_neg (fun h => by linarith [h.2]), if_pos ⟨hlo, hhi⟩]
    rfl
  · rw [if_neg (fun h => by linarith [h.2]), if_neg (fun h => by linarith [h.2]),
      if_pos ⟨hlo, hhi⟩]
    rfl
  · rw [if_neg (fun h => by linarith [h.2]), if_neg (fun h => by linarith [h.2]),
      if_neg (fun h => by linarith [h.2]), if_pos ⟨hlo, hhi⟩]
    rfl
  · rw [if_neg (fun h => by linarith [h.2]), if_neg (fun h => by linarith [h.2]),
      if_neg (fun h => by linarith [h.2]), if_neg (fun h => by linarith [h.2]),
      if_pos ⟨hlo, hhi⟩]
    rfl
  · rw [if_neg (fun h => by linarith [h.2]), if_neg (fun h => by linarith [h.2]),
      if_neg (fun h => by linarith [h.2]), if_neg (fun h => by linarith [h.2]),
      if_neg (fun h => by linarith [h.2])]
    rfl

theorem toByte_scaled (p : ℚ) (h0 : 0 ≤ p) (h1 : p ≤ 1) :
    toByte ((p + (1 - 1 * 1)) * 255) = ⌊(p + 0) * 255⌋.toNat := by
  have e : (p + (1 - 1 * 1)) * 255 = (p + 0) * 255 := by ring
  rw [e, toByte_of_range _ (by nlinarith) (by nlinarith)]

theorem colorWheel_eq_specColor_floor (input : Int) (h0 : 0 ≤ input) (h1 : input ≤ 1023) :
    colorWheel input = specColor Int.floor input := by
  have hr := specHue_range input
  have hp := specPrimes_range (specHue input)
  unfold colorWheel specColor
  simp only [if_neg (not_lt.2 h0), gt_iff_lt, if_neg (not_lt.2 h1), hue_eq_specHue input h0]
  rw [primes_eq_specPrimes _ hr.1 hr.2, toByte_scaled _ hp.1.1 hp.1.2,
    toByte_scaled _ hp.2.1.1 hp.2.1.2, toByte_scaled _ hp.2.2.1 hp.2.2.2]

/-- C9 (amended): for every input in [0,1023], each channel of
`colorWheel(input)` is the truncation of `(channel' + m) * 255`, where
`channel'` is the HSV sector value for `hue = input/1023*360` wrapped modulo
360, with `c = 1`, `m = 0` and `x = 1 - |((hue/60) mod 2) - 1|`. -/
theorem colorWheel_truncates (input : Int) (h0 : 0 ≤ input) (h1 : input ≤ 1023) :
    colorWheel input = hueToRGBTrunc input :=
  colorWheel_eq_specColor_floor input h0 h1

theorem colorWheel_truncates_witness :
    (0 : Int) ≤ 2 ∧ (2 : Int) ≤ 1023 ∧ colorWheel 2 = hueToRGBTrunc 2 :=
  ⟨by decide, by decide, colorWheel_truncates 2 (by decide) (by decide)⟩

/-- C9 as stated fails at input 2: there `x * 255 = 1020/341`, about 2.99, so
the green channel of `colorWheel(2)` is the truncation 2, while the rounded
value the claim names is 3. -/
theorem colorWheel_not_rounded :
    (0 : Int) ≤ 2 ∧ (2 : Int) ≤ 1023 ∧ (colorWheel 2).g = 2 ∧ (hueToRGBRound 2).g = 3 ∧
      colorWheel 2 ≠ hueToRGBRound 2 := by
  have hh : specHue 2 = 240 / 341 := by
    unfold specHue
    have hf : ⌊((2 : Int) : ℚ) / 1023 * 360 / 360⌋ = 0 := by
      rw [Int.floor_eq_iff]; norm_num
    rw [hf]; norm_num
  have hx : specX (240 / 341) = 4 / 341 := by
    unfold specX
    have hf : ⌊(240 / 341 : ℚ) / 60 / 2⌋ = 0 := by
      rw [Int.floor_eq_iff]; norm_num
    rw [hf, abs_of_nonpos (by norm_num)]; norm_num
  have hp : specPrimes (240 / 341) = (1, 4 / 341, 0) := by
    unfold specPrimes
    have hf : ⌊(240 / 341 : ℚ) / 60⌋ = 0 := by
      rw [Int.floor_eq_iff]; norm_num
    rw [hf, hx]
    rfl
  have hg : (colorWheel 2).g = 2 := by
    rw [colorWheel_eq_specColor_floor 2 (by decide) (by decide)]
    show (⌊((specPrimes (specHue 2)).2.1 + 0) * 255⌋).toNat = 2
    rw [hh, hp]
    have hf : ⌊((4 / 341 : ℚ) + 0) * 255⌋ = 2 := by
      rw [Int.floor_eq_iff]; norm_num
    rw [hf]; rfl
  have hs : (hueToRGBRound 2).g = 3 := by
    show (round (((specPrimes (specHue 2)).2.1 + 0) * 255)).toNat = 3
    rw [hh, hp]
    have hf : round (((4 / 341 : ℚ) + 0) * 255) = 3 := by
      rw [round_eq, Int.floor_eq_iff]; norm_num
    rw [hf]; rfl
  refine ⟨by decide, by decide, hg, hs, ?_⟩
  intro h
  rw [h, hs] at hg
  exact absurd hg (by decide)


/-! ## Intermediate values: agreement with the mappers -/

theorem colorWheel_eq_sector (input : Int) :
    colorWheel input =
      { r := toByte (((sectorPrimes (sectorIndex (colorWheelHue input))
            (colorWheelHue input)).1 + (1 - 1 * 1)) * 255),
        g := toByte (((sectorPrimes (sectorIndex (colorWheelHue input))
            (colorWheelHue input)).2.1 + (1 - 1 * 1)) * 255),
        b := toByte (((sectorPrimes (sectorIndex (colorWheelHue input))
            (colorWheelHue input)).2.2 + (1 - 1 * 1)) * 255) } := by
  have key : ∀ H : ℚ,
      (if 0 ≤ H ∧ H < 60 then ((1 : ℚ) * 1, colorWheelX H, (0 : ℚ))
        else if 60 ≤ H ∧ H < 120 then (colorWheelX H, 1 * 1, 0)
        else if 120 ≤ H ∧ H < 180 then (0, 1 * 1, colorWheelX H)
        else if 180 ≤ H ∧ H < 240 then (0, colorWheelX H, 1 * 1)
        else if 240 ≤ H ∧ H < 300 then (colorWheelX H, 0, 1 * 1)
        else (1 * 1, 0, colorWheelX H)) = sectorPrimes (sectorIndex H) H := by
    intro H
    unfold sectorIndex
    split_ifs <;> rfl
  rw [← key]
  rfl

theorem whiteBalance_eq_temp (lm : LibM) (input : Int) :
    whiteBalance lm input =
      { r := toByte (if whiteBalanceTemp input ≤ 66 then 255
          else clamp255 (329.698727446 * lm.pow (whiteBalanceTemp input - 60) (-0.1332047592))),
        g := toByte (if whiteBalanceTemp input ≤ 66 then
            clamp255 (99.4708025861 * lm.log (whiteBalanceTemp input) - 161.1195681661)
          else clamp255 (288.1221695283 * lm.pow (whiteBalanceTemp input - 60) (-0.0755148492))),
        b := toByte (if whiteBalanceTemp input ≥ 66 then 255
          else if whiteBalanceTemp input ≤ 19 then 0
          else clamp255 (138.5177312231 * lm.log (whiteBalanceTemp input - 10) -
            305.0447927307)) } :=
  rfl

theorem clampInput_range (input : Int) : 0 ≤ clampInput input ∧ clampInput input ≤ 1023 := by
  unfold clampInput
  simp only
  split_ifs <;> omega

theorem clampInput_of_range (input : Int) (h0 : 0 ≤ input) (h1 : input ≤ 1023) :
    clampInput input = input := by
  unfold clampInput
  simp only
  split_ifs <;> omega

theorem colorWheel_clampInput (input : Int) : colorWheel input = colorWheel (clampInput input) := by
  have h := clampInput_range input
  have e : clampInput (clampInput input) = clampInput input :=
    clampInput_of_range _ h.1 h.2
  rw [colorWheel_eq_sector, colorWheel_eq_sector (clampInput input)]
  unfold colorWheelHue colorWheelRawHue
  rw [e]

/-! ## Rollover of the millisecond clock -/

/-- C19: the elapsed-time test is correct across `millis()` rollover. When the
timer was restarted at true time `T0` and the call happens at true time
`T0 + d` with `d < 2^32`, the stored 32-bit values are `T0 mod 2^32` and
`(T0 + d) mod 2^32`, their unsigned difference is `d`, and a call of
`debounceSwitch` that repeats the previous reading adopts it exactly when
`d > debounceDelay`. -/
theorem elapsed_correct_across_rollover (T0 d : Nat) (hd : d < 4294967296) :
    usub ((T0 + d) % 4294967296) (T0 % 4294967296) = d ∧
      ∀ st : DebounceState, st.lastDebounceTime = T0 % 4294967296 →
        (debounceSwitch st st.lastSwitchState ((T0 + d) % 4294967296)).1.switchState =
          if d > debounceDelay then st.lastSwitchState else st.switchState := by
  have hu : usub ((T0 + d) % 4294967296) (T0 % 4294967296) = d := by
    unfold usub; omega
  refine ⟨hu, ?_⟩
  intro st hst
  simp only [debounceSwitch, ne_eq, not_true_eq_false, if_false, hst, hu, ite_not]
  split_ifs <;> simp_all

theorem elapsed_correct_across_rollover_witness :
    (20 : Nat) < 4294967296 ∧ (4294967291 + 20) % 4294967296 < 4294967291 % 4294967296 ∧
      usub ((4294967291 + 20) % 4294967296) (4294967291 % 4294967296) = 20 :=
  ⟨by decide, by decide, (elapsed_correct_across_rollover 4294967291 20 (by decide)).1⟩

/-! ## The hue wheel -/

theorem colorWheelHue_eq_specHue (input : Int) :
    colorWheelHue input = specHue (clampInput input) :=
  hue_eq_specHue (clampInput input) (clampInput_range input).1

theorem toByte_natCast (n : Nat) (h : n < 256) : toByte (n : ℚ) = n := by
  unfold toByte truncQ
  rw [if_pos (by positivity), Int.floor_natCast]
  omega

theorem fmod_zero_left (b : ℚ) : fmod 0 b = 0 := by
  simp [fmod, truncQ]

theorem fmod_self (b : ℚ) (hb : 0 < b) : fmod b b = 0 := by
  have h1 : b / b = 1 := div_self (ne_of_gt hb)
  simp [fmod, truncQ, h1]

theorem colorWheelHue_zero : colorWheelHue 0 = 0 := by
  have h : colorWheelRawHue 0 = 0 := by
    unfold colorWheelRawHue
    rw [clampInput_of_range 0 (by decide) (by decide)]
    norm_num
  unfold colorWheelHue
  rw [h, fmod_zero_left]

theorem colorWheelRawHue_max : colorWheelRawHue 1023 = 360 := by
  unfold colorWheelRawHue
  rw [clampInput_of_range 1023 (by decide) (by decide)]
  norm_num

theorem colorWheelHue_max : colorWheelHue 1023 = 0 := by
  unfold colorWheelHue
  rw [colorWheelRawHue_max, fmod_self 360 (by norm_num)]

theorem colorWheelX_zero : colorWheelX 0 = 0 := by
  unfold colorWheelX
  rw [zero_div, fmod_zero_left]
  norm_num [DeskColorBar.abs]

theorem sectorIndex_zero : sectorIndex 0 = 0 := by
  unfold sectorIndex
  rw [if_pos ⟨le_refl _, by norm_num⟩]

theorem colorWheel_of_hue_zero (input : Int) (h : colorWheelHue input = 0) :
    colorWheel input = { r := 255, g := 0, b := 0 } := by
  rw [colorWheel_eq_sector, h, sectorIndex_zero]
  have e1 : ((sectorPrimes 0 0).1 + (1 - 1 * 1)) * 255 = ((255 : Nat) : ℚ) := by
    norm_num [sectorPrimes]
  have e2 : ((sectorPrimes 0 0).2.1 + (1 - 1 * 1)) * 255 = ((0 : Nat) : ℚ) := by
    norm_num [sectorPrimes, colorWheelX_zero]
  have e3 : ((sectorPrimes 0 0).2.2 + (1 - 1 * 1)) * 255 = ((0 : Nat) : ℚ) := by
    norm_num [sectorPrimes]
  rw [e1, e2, e3, toByte_natCast 255 (by decide), toByte_natCast 0 (by decide)]

/-- C16: for every input the hue that `colorWheel` uses after the modulo lies
in [0, 360); input 1023 maps to exactly 360 degrees, which the modulo wraps to
0, so `colorWheel(1023) = colorWheel(0) = (255, 0, 0)`. -/
theorem hue_wraps_at_full_scale :
    (∀ input : Int, 0 ≤ colorWheelHue input ∧ colorWheelHue input < 360) ∧
      colorWheelRawHue 1023 = 360 ∧ colorWheelHue 1023 = 0 ∧
      colorWheel 1023 = colorWheel 0 ∧ colorWheel 0 = { r := 255, g := 0, b := 0 } := by
  refine ⟨?_, colorWheelRawHue_max, colorWheelHue_max, ?_, colorWheel_of_hue_zero 0
    colorWheelHue_zero⟩
  · intro input
    rw [colorWheelHue_eq_specHue]
    exact specHue_range _
  · rw [colorWheel_of_hue_zero 1023 colorWheelHue_max,
      colorWheel_of_hue_zero 0 colorWheelHue_zero]

theorem floor_scaled_one : (⌊((1 : ℚ) + 0) * 255⌋).toNat = 255 := by
  have e : ((1 : ℚ) + 0) * 255 = ((255 : Int) : ℚ) := by norm_num
  rw [e, Int.floor_intCast]
  rfl

theorem floor_scaled_zero : (⌊((0 : ℚ) + 0) * 255⌋).toNat = 0 := by
  have e : ((0 : ℚ) + 0) * 255 = ((0 : Int) : ℚ) := by norm_num
  rw [e, Int.floor_intCast]
  rfl

theorem floor_scaled_le (x : ℚ) (h1 : x ≤ 1) : (⌊(x + 0) * 255⌋).toNat ≤ 255 := by
  have h : ⌊(x + 0) * 255⌋ ≤ 255 := by
    have hle : (x + 0) * 255 ≤ ((255 : Int) : ℚ) := by push_cast; linarith
    exact (Int.floor_le_floor hle).trans (le_of_eq (Int.floor_intCast 255))
  omega

theorem specColor_floor_saturated (input : Int) :
    max (specColor Int.floor input).r
        (max (specColor Int.floor input).g (specColor Int.floor input).b) = 255 ∧
      min (specColor Int.floor input).r
        (min (specColor Int.floor input).g (specColor Int.floor input).b) = 0 := by
  have hx := floor_scaled_le (specX (specHue input)) (specX_range _).2
  unfold specColor
  simp only
  generalize specHue input = H at hx ⊢
  unfold specPrimes
  split <;> simp only [floor_scaled_one, floor_scaled_zero] <;> omega

/-- C17: for every integer input the colour that `colorWheel` returns is fully
saturated at full value: its largest channel is 255 and its smallest channel
is 0. -/
theorem colorWheel_saturated (input : Int) :
    max (colorWheel input).r (max (colorWheel input).g (colorWheel input).b) = 255 ∧
      min (colorWheel input).r (min (colorWheel input).g (colorWheel input).b) = 0 := by
  rw [colorWheel_clampInput, colorWheel_eq_specColor_floor _ (clampInput_range input).1
    (clampInput_range input).2]
  exact specColor_floor_saturated _

theorem fmod_eval (a b : ℚ) (k : Int) (h0 : 0 ≤ a / b) (hlo : (k : ℚ) ≤ a / b)
    (hhi : a / b < (k : ℚ) + 1) : fmod a b = a - b * (k : ℚ) := by
  rw [fmod_of_nonneg a b h0, Int.floor_eq_iff.2 ⟨hlo, hhi⟩]

theorem colorWheelX_60 : colorWheelX 60 = 1 := by
  unfold colorWheelX
  rw [fmod_eval (60 / 60) 2 0 (by norm_num) (by norm_num) (by norm_num)]
  norm_num [DeskColorBar.abs]

theorem colorWheelX_120 : colorWheelX 120 = 0 := by
  unfold colorWheelX
  rw [fmod_eval (120 / 60) 2 1 (by norm_num) (by norm_num) (by norm_num)]
  norm_num [DeskColorBar.abs]

theorem colorWheelX_180 : colorWheelX 180 = 1 := by
  unfold colorWheelX
  rw [fmod_eval (180 / 60) 2 1 (by norm_num) (by norm_num) (by norm_num)]
  norm_num [DeskColorBar.abs]

theorem colorWheelX_240 : colorWheelX 240 = 0 := by
  unfold colorWheelX
  rw [fmod_eval (240 / 60) 2 2 (by norm_num) (by norm_num) (by norm_num)]
  norm_num [DeskColorBar.abs]

theorem colorWheelX_300 : colorWheelX 300 = 1 := by
  unfold colorWheelX
  rw [fmod_eval (300 / 60) 2 2 (by norm_num) (by norm_num) (by norm_num)]
  norm_num [DeskColorBar.abs]

theorem colorWheelHue_341 : colorWheelHue 341 = 120 := by
  unfold colorWheelHue colorWheelRawHue
  rw [clampInput_of_range 341 (by decide) (by decide),
    fmod_eval _ 360 0 (by norm_num) (by norm_num) (by norm_num)]
  norm_num

theorem colorWheelHue_682 : colorWheelHue 682 = 240 := by
  unfold colorWheelHue colorWheelRawHue
  rw [clampInput_of_range 682 (by decide) (by decide),
    fmod_eval _ 360 0 (by norm_num) (by norm_num) (by norm_num)]
  norm_num

theorem sectorIndex_120 : sectorIndex 120 = 2 := by
  unfold sectorIndex
  rw [if_neg (by norm_num), if_neg (by norm_num), if_pos (by norm_num)]

theorem sectorIndex_240 : sectorIndex 240 = 4 := by
  unfold sectorIndex
  rw [if_neg (by norm_num), if_neg (by norm_num), if_neg (by norm_num), if_neg (by norm_num),
    if_pos (by norm_num)]

theorem colorWheel_341 : colorWheel 341 = { r := 0, g := 255, b := 0 } := by
  rw [colorWheel_eq_sector, colorWheelHue_341, sectorIndex_120]
  have e1 : ((sectorPrimes 2 120).1 + (1 - 1 * 1)) * 255 = ((0 : Nat) : ℚ) := by
    norm_num [sectorPrimes]
  have e2 : ((sectorPrimes 2 120).2.1 + (1 - 1 * 1)) * 255 = ((255 : Nat) : ℚ) := by
    norm_num [sectorPrimes]
  have e3 : ((sectorPrimes 2 120).2.2 + (1 - 1 * 1)) * 255 = ((0 : Nat) : ℚ) := by
    norm_num [sectorPrimes, colorWheelX_120]
  rw [e1, e2, e3, toByte_natCast 255 (by decide), toByte_natCast 0 (by decide)]

theorem colorWheel_682 : colorWheel 682 = { r := 0, g := 0, b := 255 } := by
  rw [colorWheel_eq_sector, colorWheelHue_682, sectorIndex_240]
  have e1 : ((sectorPrimes 4 240).1 + (1 - 1 * 1)) * 255 = ((0 : Nat) : ℚ) := by
    norm_num [sectorPrimes, colorWheelX_240]
  have e2 : ((sectorPrimes 4 240).2.1 + (1 - 1 * 1)) * 255 = ((0 : Nat) : ℚ) := by
    norm_num [sectorPrimes]
  have e3 : ((sectorPrimes 4 240).2.2 + (1 - 1 * 1)) * 255 = ((255 : Nat) : ℚ) := by
    norm_num [sectorPrimes]
  rw [e1, e2, e3, toByte_natCast 255 (by decide), toByte_natCast 0 (by decide)]

/-- C15: `colorWheel` has no discontinuity at the sector transitions. At each
boundary hue 60, 120, 180, 240, 300 the `(r', g', b')` triple of the branch
that ends there and the triple of the branch that starts there are equal; the
inputs 341 and 682 have the hues 120 and 240 exactly and give `(0, 255, 0)`
and `(0, 0, 255)`. -/
theorem sector_transitions_agree :
    sectorPrimes 0 60 = sectorPrimes 1 60 ∧
      sectorPrimes 1 120 = sectorPrimes 2 120 ∧
      sectorPrimes 2 180 = sectorPrimes 3 180 ∧
      sectorPrimes 3 240 = sectorPrimes 4 240 ∧
      sectorPrimes 4 300 = sectorPrimes 5 300 ∧
      colorWheelHue 341 = 120 ∧ colorWheelHue 682 = 240 ∧
      colorWheel 341 = { r := 0, g := 255, b := 0 } ∧
      colorWheel 682 = { r := 0, g := 0, b := 255 } := by
  refine ⟨?_, ?_, ?_, ?_, ?_, colorWheelHue_341, colorWheelHue_682, colorWheel_341,
    colorWheel_682⟩
  · simp only [sectorPrimes, colorWheelX_60, mul_one]
  · simp only [sectorPrimes, colorWheelX_120, mul_one]
  · simp only [sectorPrimes, colorWheelX_180, mul_one]
  · simp only [sectorPrimes, colorWheelX_240, mul_one]
  · simp only [sectorPrimes, colorWheelX_300, mul_one]

/-! ## The white-balance mapper -/

theorem whiteBalanceTemp_range (input : Int) :
    10 ≤ whiteBalanceTemp input ∧ whiteBalanceTemp input ≤ 80 := by
  have h := clampInput_range input
  have h0 : (0 : ℚ) ≤ (clampInput input : ℚ) := by exact_mod_cast h.1
  have h1 : (clampInput input : ℚ) ≤ 1023 := by exact_mod_cast h.2
  unfold whiteBalanceTemp
  constructor
  · rw [le_div_iff₀ (by norm_num)]
    have : 0 ≤ (clampInput input : ℚ) / 1023 * (8000 - 1000) := by positivity
    linarith
  · rw [div_le_iff₀ (by norm_num)]
    have : (clampInput input : ℚ) / 1023 ≤ 1 := by
      rw [div_le_one (by norm_num)]; exact h1
    linarith

theorem whiteBalance_congr (lm lm2 : LibM) (input : Int)
    (hlog : ∀ x : ℚ, 9 < x → lm.log x = lm2.log x)
    (hpow : ∀ x y : ℚ, 6 < x → lm.pow x y = lm2.pow x y) :
    whiteBalance lm input = whiteBalance lm2 input := by
  have ht := whiteBalanceTemp_range input
  rw [whiteBalance_eq_temp, whiteBalance_eq_temp]
  have hr : (if whiteBalanceTemp input ≤ 66 then (255 : ℚ)
        else clamp255 (329.698727446 * lm.pow (whiteBalanceTemp input - 60) (-0.1332047592))) =
      (if whiteBalanceTemp input ≤ 66 then (255 : ℚ)
        else clamp255 (329.698727446 *
          lm2.pow (whiteBalanceTemp input - 60) (-0.1332047592))) := by
    by_cases h : whiteBalanceTemp input ≤ 66
    · rw [if_pos h, if_pos h]
    · rw [if_neg h, if_neg h, hpow _ _ (by linarith)]
  have hg : (if whiteBalanceTemp input ≤ 66 then
          clamp255 (99.4708025861 * lm.log (whiteBalanceTemp input) - 161.1195681661)
        else clamp255 (288.1221695283 *
          lm.pow (whiteBalanceTemp input - 60) (-0.0755148492))) =
      (if whiteBalanceTemp input ≤ 66 then
          clamp255 (99.4708025861 * lm2.log (whiteBalanceTemp input) - 161.1195681661)
        else clamp255 (288.1221695283 *
          lm2.pow (whiteBalanceTemp input - 60) (-0.0755148492))) := by
    by_cases h : whiteBalanceTemp input ≤ 66
    · rw [if_pos h, if_pos h, hlog _ (by linarith)]
    · rw [if_neg h, if_neg h, hpow _ _ (by linarith)]
  have hb : (if whiteBalanceTemp input ≥ 66 then (255 : ℚ)
        else if whiteBalanceTemp input ≤ 19 then 0
        else clamp255 (138.5177312231 * lm.log (whiteBalanceTemp input - 10) -
          305.0447927307)) =
      (if whiteBalanceTemp input ≥ 66 then (255 : ℚ)
        else if whiteBalanceTemp input ≤ 19 then 0
        else clamp255 (138.5177312231 * lm2.log (whiteBalanceTemp input - 10) -
          305.0447927307)) := by
    by_cases h : whiteBalanceTemp input ≥ 66
    · rw [if_pos h, if_pos h]
    · by_cases h2 : whiteBalanceTemp input ≤ 19
      · rw [if_neg h, if_neg h, if_pos h2, if_pos h2]
      · rw [if_neg h, if_neg h, if_neg h2, if_neg h2, hlog _ (by linarith)]
  rw [hr, hg, hb]

/-- C13: `whiteBalance` is total. For every integer input the mapped
temperature lies in [1000, 8000], so `temp` lies in [10, 80]; and the result
depends on `log` only at arguments above 9 and on `pow` only at bases above 6
(two libraries that agree there give the same colour), so no `log` or `pow`
is applied outside its domain. -/
theorem whiteBalance_total :
    (∀ input : Int, 1000 ≤ whiteBalanceTemp input * 100 ∧ whiteBalanceTemp input * 100 ≤ 8000 ∧
        10 ≤ whiteBalanceTemp input ∧ whiteBalanceTemp input ≤ 80) ∧
      ∀ (lm lm2 : LibM) (input : Int),
        (∀ x : ℚ, 9 < x → lm.log x = lm2.log x) →
        (∀ x y : ℚ, 6 < x → lm.pow x y = lm2.pow x y) →
        whiteBalance lm input = whiteBalance lm2 input := by
  constructor
  · intro input
    have h := whiteBalanceTemp_range input
    exact ⟨by linarith, by linarith, h.1, h.2⟩
  · intro lm lm2 input hlog hpow
    exact whiteBalance_congr lm lm2 input hlog hpow

theorem whiteBalance_total_witness :
    whiteBalance sampleLibM 900 = whiteBalance sampleLibMOnDomain 900 :=
  whiteBalance_total.2 sampleLibM sampleLibMOnDomain 900
    (fun x hx => by simp [sampleLibM, sampleLibMOnDomain, hx])
    (fun x _ hx => by simp [sampleLibM, sampleLibMOnDomain, hx])

theorem clamp255_range (f : ℚ) : 0 ≤ clamp255 f ∧ clamp255 f ≤ 255 := by
  unfold clamp255
  simp only
  split_ifs <;> constructor <;> linarith

theorem clamp255_mono (f g : ℚ) (h : f ≤ g) : clamp255 f ≤ clamp255 g := by
  unfold clamp255
  simp only
  split_ifs <;> linarith

theorem toByte_mono (p q : ℚ) (hp : 0 ≤ p) (hpq : p ≤ q) (hq : q < 256) :
    toByte p ≤ toByte q := by
  rw [toByte_of_range p hp (by linarith), toByte_of_range q (by linarith) hq]
  exact Int.toNat_le_toNat (Int.floor_le_floor hpq)

theorem whiteBalanceTemp_mono (a b : Int) (h0 : 0 ≤ a) (hab : a ≤ b) (hb : b ≤ 1023) :
    whiteBalanceTemp a ≤ whiteBalanceTemp b := by
  unfold whiteBalanceTemp
  rw [clampInput_of_range a h0 (by omega), clampInput_of_range b (by omega) hb]
  have h : (a : ℚ) ≤ (b : ℚ) := by exact_mod_cast hab
  rw [div_le_div_iff_of_pos_right (by norm_num)]
  have : (a : ℚ) / 1023 ≤ (b : ℚ) / 1023 := by
    rw [div_le_div_iff_of_pos_right (by norm_num)]; exact h
  linarith

theorem blue_value_mono (lm : LibM)
    (hlog : ∀ x y : ℚ, 9 < x → x ≤ y → lm.log x ≤ lm.log y) (t1 t2 : ℚ) (h : t1 ≤ t2) :
    (0 : ℚ) ≤ (if t1 ≥ 66 then (255 : ℚ) else if t1 ≤ 19 then 0
        else clamp255 (138.5177312231 * lm.log (t1 - 10) - 305.0447927307)) ∧
      (if t1 ≥ 66 then (255 : ℚ) else if t1 ≤ 19 then 0
        else clamp255 (138.5177312231 * lm.log (t1 - 10) - 305.0447927307)) ≤
      (if t2 ≥ 66 then (255 : ℚ) else if t2 ≤ 19 then 0
        else clamp255 (138.5177312231 * lm.log (t2 - 10) - 305.0447927307)) ∧
      (if t2 ≥ 66 then (255 : ℚ) else if t2 ≤ 19 then 0
        else clamp255 (138.5177312231 * lm.log (t2 - 10) - 305.0447927307)) < 256 := by
  have r1 := clamp255_range (138.5177312231 * lm.log (t1 - 10) - 305.0447927307)
  have r2 := clamp255_range (138.5177312231 * lm.log (t2 - 10) - 305.0447927307)
  split_ifs with a1 a2 a3 a4 a5 a6 a7 <;>
    first
    | (refine ⟨?_, ?_, ?_⟩ <;> linarith)
    | (refine ⟨by linarith, ?_, by linarith⟩
       apply clamp255_mono
       have := hlog (t1 - 10) (t2 - 10) (by linarith) (by linarith)
       linarith)

theorem red_value_anti (lm : LibM)
    (hpow : ∀ x y : ℚ, 6 < x → x ≤ y →
      lm.pow y (-0.1332047592) ≤ lm.pow x (-0.1332047592)) (t1 t2 : ℚ) (h : t1 ≤ t2) :
    (0 : ℚ) ≤ (if t2 ≤ 66 then (255 : ℚ)
        else clamp255 (329.698727446 * lm.pow (t2 - 60) (-0.1332047592))) ∧
      (if t2 ≤ 66 then (255 : ℚ)
        else clamp255 (329.698727446 * lm.pow (t2 - 60) (-0.1332047592))) ≤
      (if t1 ≤ 66 then (255 : ℚ)
        else clamp255 (329.698727446 * lm.pow (t1 - 60) (-0.1332047592))) ∧
      (if t1 ≤ 66 then (255 : ℚ)
        else clamp255 (329.698727446 * lm.pow (t1 - 60) (-0.1332047592))) < 256 := by
  have r1 := clamp255_range (329.698727446 * lm.pow (t1 - 60) (-0.1332047592))
  have r2 := clamp255_range (329.698727446 * lm.pow (t2 - 60) (-0.1332047592))
  split_ifs with a1 a2 a3 <;>
    first
    | (refine ⟨?_, ?_, ?_⟩ <;> linarith)
    | (refine ⟨by linarith, ?_, by linarith⟩
       apply clamp255_mono
       have := hpow (t1 - 60) (t2 - 60) (by linarith) (by linarith)
       linarith)

/-- C18: `whiteBalance` is monotone in its red and blue channels. With a `log`
that is non-decreasing above 9 and a `pow` that, for the exponent
-0.1332047592, is non-increasing in a base above 6 (as the real functions
are), for all inputs `a <= b` in [0,1023] the blue channel of
`whiteBalance(a)` is at most that of `whiteBalance(b)` and the red channel of
`whiteBalance(a)` is at least that of `whiteBalance(b)`. -/
theorem whiteBalance_red_blue_monotone (lm : LibM)
    (hlog : ∀ x y : ℚ, 9 < x → x ≤ y → lm.log x ≤ lm.log y)
    (hpow : ∀ x y : ℚ, 6 < x → x ≤ y →
      lm.pow y (-0.1332047592) ≤ lm.pow x (-0.1332047592))
    (a b : Int) (h0 : 0 ≤ a) (hab : a ≤ b) (hb : b ≤ 1023) :
    (whiteBalance lm a).b ≤ (whiteBalance lm b).b ∧
      (whiteBalance lm b).r ≤ (whiteBalance lm a).r := by
  have ht := whiteBalanceTemp_mono a b h0 hab hb
  have hB := blue_value_mono lm hlog _ _ ht
  have hR := red_value_anti lm hpow _ _ ht
  rw [whiteBalance_eq_temp, whiteBalance_eq_temp]
  exact ⟨toByte_mono _ _ hB.1 hB.2.1 hB.2.2, toByte_mono _ _ hR.1 hR.2.1 hR.2.2⟩

theorem whiteBalance_red_blue_monotone_witness :
    (whiteBalance monotoneLibM 300).b ≤ (whiteBalance monotoneLibM 900).b ∧
      (whiteBalance monotoneLibM 900).r ≤ (whiteBalance monotoneLibM 300).r :=
  whiteBalance_red_blue_monotone monotoneLibM
    (fun x y _ hxy => by simp only [monotoneLibM]; linarith)
    (fun x y hx hxy => by
      simp only [monotoneLibM]
      exact one_div_le_one_div_of_le (by linarith) hxy)
    300 900 (by decide) (by decide) (by decide)

/-! ## The analog sampler -/

theorem foldl_add_eq_sum (f : Nat → Int) (l : List Nat) :
    ∀ acc : Int, l.foldl (fun total i => total + f i) acc = acc + (l.map f).sum := by
  induction l with
  | nil => intro acc; simp
  | cons i l ih => intro acc; simp [ih, add_assoc]

theorem foldl_addChecked_none (intMax : Int) (f : Nat → Int) (l : List Nat) :
    l.foldl (fun total i => addChecked intMax total (f i)) none = none := by
  induction l with
  | nil => rfl
  | cons i l ih => simpa [addChecked] using ih

theorem foldl_addChecked (intMax : Int) (f : Nat → Int) (l : List Nat) :
    ∀ t : Int, 0 ≤ t → t ≤ intMax → (∀ i ∈ l, 0 ≤ f i) →
      l.foldl (fun total i => addChecked intMax total (f i)) (some t) =
        if t + (l.map f).sum ≤ intMax then some (t + (l.map f).sum) else none := by
  induction l with
  | nil =>
    intro t _ h _
    simp [h]
  | cons i l ih =>
    intro t ht _ hf
    have hi : 0 ≤ f i := hf i (List.mem_cons_self _ _)
    have hl : ∀ j ∈ l, 0 ≤ f j := fun j hj => hf j (List.mem_cons_of_mem _ hj)
    have hs : 0 ≤ (l.map f).sum :=
      List.sum_nonneg (fun x hx => by
        obtain ⟨j, hj, rfl⟩ := List.mem_map.1 hx
        exact hl j hj)
    simp only [List.foldl_cons, List.map_cons, List.sum_cons]
    by_cases h : t + f i ≤ intMax
    · have e : addChecked intMax (some t) (f i) = some (t + f i) := by
        simp only [addChecked, Option.bind]
        rw [if_pos ⟨by omega, h⟩]
      rw [e, ih (t + f i) (by omega) h hl, add_assoc]
    · have e : addChecked intMax (some t) (f i) = none := by
        simp only [addChecked, Option.bind]
        rw [if_neg (fun hc => h hc.2)]
      rw [e, foldl_addChecked_none, if_neg (by omega)]

theorem sum_map_range_bounds (f : Nat → Int) (n : Nat)
    (hf : ∀ i, i < n → 0 ≤ f i ∧ f i ≤ 1023) :
    0 ≤ ((List.range n).map f).sum ∧ ((List.range n).map f).sum ≤ (n : Int) * 1023 := by
  induction n with
  | zero => simp
  | succ n ih =>
    have h := ih (fun i hi => hf i (Nat.lt_succ_of_lt hi))
    have hn := hf n (Nat.lt_succ_self n)
    rw [List.range_succ, List.map_append, List.sum_append]
    simp only [List.map_cons, List.map_nil, List.sum_cons, List.sum_nil, add_zero]
    push_cast
    constructor <;> linarith

theorem getAveragePotValue_eq_sum (numReadings : Int) (f : Nat → Int) :
    getAveragePotValue numReadings f =
      (((List.range numReadings.toNat).map f).sum).tdiv numReadings := by
  unfold getAveragePotValue
  simp only
  rw [foldl_add_eq_sum, zero_add]

theorem getAveragePotValue_bounds (numReadings : Int) (f : Nat → Int) (hn : 1 ≤ numReadings)
    (hf : ∀ i, i < numReadings.toNat → 0 ≤ f i ∧ f i ≤ 1023) :
    0 ≤ getAveragePotValue numReadings f ∧ getAveragePotValue numReadings f ≤ 1023 := by
  have hs := sum_map_range_bounds f numReadings.toNat hf
  have hcast : ((numReadings.toNat : Nat) : Int) = numReadings :=
    Int.toNat_of_nonneg (by omega)
  rw [hcast] at hs
  rw [getAveragePotValue_eq_sum, Int.tdiv_eq_ediv hs.1 (by omega)]
  constructor
  · exact Int.ediv_nonneg hs.1 (by omega)
  · apply Int.ediv_le_of_le_mul (by omega)
    linarith

theorem getAveragePotValueChecked_of_nonneg (intMax : Int) (h0 : 0 ≤ intMax)
    (numReadings : Int) (hn : numReadings ≠ 0) (f : Nat → Int)
    (hf : ∀ i, i < numReadings.toNat → 0 ≤ f i) :
    getAveragePotValueChecked intMax numReadings f =
      if ((List.range numReadings.toNat).map f).sum ≤ intMax then
        some (getAveragePotValue numReadings f) else none := by
  unfold getAveragePotValueChecked
  simp only
  rw [foldl_addChecked intMax f _ 0 (le_refl _) h0
    (fun i hi => hf i (List.mem_range.1 hi)), zero_add, getAveragePotValue_eq_sum]
  split_ifs with h
  · simp [hn]
  · rfl

/-- C14 (amended): for every `numReadings >= 1` with
`numReadings * 1023 <= INT_MAX` and every sequence of `numReadings` analog
readings in [0,1023], the accumulation in the `int` variable `total` does not
overflow and `getAveragePotValue` returns the sum of the readings
integer-divided by `numReadings`, a value in [0,1023]. -/
theorem getAveragePotValue_average (intMax : Int) (numReadings : Int) (f : Nat → Int)
    (hn : 1 ≤ numReadings) (hmax : numReadings * 1023 ≤ intMax)
    (hf : ∀ i, i < numReadings.toNat → 0 ≤ f i ∧ f i ≤ 1023) :
    getAveragePotValueChecked intMax numReadings f =
        some ((((List.range numReadings.toNat).map f).sum).tdiv numReadings) ∧
      getAveragePotValue numReadings f =
        (((List.range numReadings.toNat).map f).sum).tdiv numReadings ∧
      0 ≤ getAveragePotValue numReadings f ∧ getAveragePotValue numReadings f ≤ 1023 := by
  have hs := sum_map_range_bounds f numReadings.toNat hf
  have hcast : ((numReadings.toNat : Nat) : Int) = numReadings :=
    Int.toNat_of_nonneg (by omega)
  rw [hcast] at hs
  have hb := getAveragePotValue_bounds numReadings f hn hf
  refine ⟨?_, getAveragePotValue_eq_sum numReadings f, hb.1, hb.2⟩
  rw [getAveragePotValueChecked_of_nonneg intMax (by omega) numReadings (by omega) f
    (fun i hi => (hf i hi).1), if_pos (by linarith), getAveragePotValue_eq_sum]

theorem getAveragePotValue_average_witness :
    getAveragePotValueChecked 32767 3 (fun i => 1000 + (i : Int)) =
        some ((((List.range (3 : Int).toNat).map (fun i => 1000 + (i : Int))).sum).tdiv 3) ∧
      getAveragePotValue 3 (fun i => 1000 + (i : Int)) =
        (((List.range (3 : Int).toNat).map (fun i => 1000 + (i : Int))).sum).tdiv 3 ∧
      0 ≤ getAveragePotValue 3 (fun i => 1000 + (i : Int)) ∧
      getAveragePotValue 3 (fun i => 1000 + (i : Int)) ≤ 1023 :=
  getAveragePotValue_average 32767 3 (fun i => 1000 + (i : Int)) (by decide) (by decide)
    (fun i hi => by
      have : i < 3 := hi
      show 0 ≤ 1000 + (i : Int) ∧ 1000 + (i : Int) ≤ 1023
      constructor <;> omega)

theorem sum_map_const (c : Int) (n : Nat) :
    ((List.range n).map (fun _ => c)).sum = (n : Int) * c := by
  induction n with
  | zero => simp
  | succ n ih =>
    rw [List.range_succ, List.map_append, List.sum_append, ih]
    simp only [List.map_cons, List.map_nil, List.sum_cons, List.sum_nil, add_zero]
    push_cast
    ring

/-- C14 as stated fails: with a 16-bit `int` (`INT_MAX = 32767`), 33 readings
of 1023 each are in range, yet their sum 33759 exceeds `INT_MAX`, so the
accumulation overflows; with a 32-bit `int` the same happens for 2099203
readings of 1023. -/
theorem getAveragePotValue_overflows :
    (1 : Int) ≤ 33 ∧ ((List.range (33 : Int).toNat).map (fun _ => (1023 : Int))).sum = 33759 ∧
      getAveragePotValueChecked 32767 33 (fun _ => 1023) = none ∧
      getAveragePotValueChecked 2147483647 2099203 (fun _ => 1023) = none := by
  refine ⟨by decide, ?_, ?_, ?_⟩
  · rw [sum_map_const]; rfl
  · rw [getAveragePotValueChecked_of_nonneg 32767 (by decide) 33 (by decide) _
      (fun _ _ => by decide), sum_map_const, if_neg (by decide)]
  · rw [getAveragePotValueChecked_of_nonneg 2147483647 (by decide) 2099203 (by decide) _
      (fun _ _ => by decide), sum_map_const, if_neg (by decide)]
theorem log_1024_bounds : 0.0234375 ≤ Real.log 1.024 ∧ Real.log 1.024 ≤ 0.024 := by
  constructor
  · have := Real.one_sub_inv_le_log_of_pos (show (0 : ℝ) < 1.024 by norm_num)
    norm_num at this ⊢
    linarith
  · have := Real.log_le_sub_one_of_pos (show (0 : ℝ) < 1.024 by norm_num)
    linarith

theorem log_ten_bounds : 2.30249 < Real.log 10 ∧ Real.log 10 < 2.30268 := by
  have h2lo := Real.log_two_gt_d9
  have h2hi := Real.log_two_lt_d9
  have h := log_1024_bounds
  have e : 3 * Real.log 10 + Real.log 1.024 = 10 * Real.log 2 := by
    have h1 : (10 : ℝ) ^ 3 * 1.024 = 2 ^ 10 := by norm_num
    have h2 := congrArg Real.log h1
    rw [Real.log_mul (by norm_num) (by norm_num), Real.log_pow, Real.log_pow] at h2
    push_cast at h2
    linarith
  constructor <;> linarith

theorem log_twenty_bounds : 2.99563 < Real.log 20 ∧ Real.log 20 < 2.99583 := by
  have h2lo := Real.log_two_gt_d9
  have h2hi := Real.log_two_lt_d9
  have h := log_ten_bounds
  have e : Real.log 20 = Real.log 2 + Real.log 10 := by
    rw [← Real.log_mul (by norm_num) (by norm_num)]
    norm_num
  rw [e]
  constructor <;> linarith

theorem exp_taylor5 (x : ℝ) (hx : |x| ≤ 1) :
    |Real.exp x - (1 + x + x ^ 2 / 2 + x ^ 3 / 6 + x ^ 4 / 24)| ≤ |x| ^ 5 / 100 := by
  have h := Real.exp_bound hx (show 0 < 5 by norm_num)
  have e : (∑ m ∈ Finset.range 5, x ^ m / (m.factorial : ℝ)) =
      1 + x + x ^ 2 / 2 + x ^ 3 / 6 + x ^ 4 / 24 := by
    simp [Finset.sum_range_succ, Nat.factorial]
  rw [e] at h
  have e2 : |x| ^ 5 * (((5 : ℕ).succ : ℝ) / (((5 : ℕ).factorial : ℝ) * ((5 : ℕ) : ℝ))) =
      |x| ^ 5 / 100 := by
    simp [Nat.factorial]
    ring
  rw [e2] at h
  exact h

theorem exp_neg_bounds (y : ℝ) (h0 : 0 ≤ y) (h1 : y ≤ 1) :
    1 - y + y ^ 2 / 2 - y ^ 3 / 6 + y ^ 4 / 24 - y ^ 5 / 100 ≤ Real.exp (-y) ∧
      Real.exp (-y) ≤ 1 - y + y ^ 2 / 2 - y ^ 3 / 6 + y ^ 4 / 24 + y ^ 5 / 100 := by
  have h := exp_taylor5 (-y) (by rw [abs_neg, abs_of_nonneg h0]; exact h1)
  rw [abs_neg, abs_of_nonneg h0, abs_le] at h
  constructor <;> nlinarith [h.1, h.2]

theorem rpow_red_bounds :
    0.6709 < (20 : ℝ) ^ (-0.1332047592 : ℝ) ∧ (20 : ℝ) ^ (-0.1332047592 : ℝ) < 0.6712 := by
  have hl := log_twenty_bounds
  rw [Real.rpow_def_of_pos (by norm_num)]
  have hlo : (0.6709 : ℝ) < Real.exp (-0.39906) :=
    lt_of_lt_of_le (by norm_num) (exp_neg_bounds 0.39906 (by norm_num) (by norm_num)).1
  have hhi : Real.exp (-0.39903) < (0.6712 : ℝ) :=
    lt_of_le_of_lt (exp_neg_bounds 0.39903 (by norm_num) (by norm_num)).2 (by norm_num)
  have m1 : Real.exp (-0.39906) ≤ Real.exp (Real.log 20 * -0.1332047592) :=
    Real.exp_le_exp.2 (by linarith [hl.1, hl.2])
  have m2 : Real.exp (Real.log 20 * -0.1332047592) ≤ Real.exp (-0.39903) :=
    Real.exp_le_exp.2 (by linarith [hl.1, hl.2])
  constructor <;> linarith

theorem rpow_green_bounds :
    0.7975 < (20 : ℝ) ^ (-0.0755148492 : ℝ) ∧ (20 : ℝ) ^ (-0.0755148492 : ℝ) < 0.7976 := by
  have hl := log_twenty_bounds
  rw [Real.rpow_def_of_pos (by norm_num)]
  have hlo : (0.7975 : ℝ) < Real.exp (-0.22623) :=
    lt_of_lt_of_le (by norm_num) (exp_neg_bounds 0.22623 (by norm_num) (by norm_num)).1
  have hhi : Real.exp (-0.22621) < (0.7976 : ℝ) :=
    lt_of_le_of_lt (exp_neg_bounds 0.22621 (by norm_num) (by norm_num)).2 (by norm_num)
  have m1 : Real.exp (-0.22623) ≤ Real.exp (Real.log 20 * -0.0755148492) :=
    Real.exp_le_exp.2 (by linarith [hl.1, hl.2])
  have m2 : Real.exp (Real.log 20 * -0.0755148492) ≤ Real.exp (-0.22621) :=
    Real.exp_le_exp.2 (by linarith [hl.1, hl.2])
  constructor <;> linarith

theorem toByte_of_floor (q : ℚ) (n : Nat) (hn : n < 256) (h1 : (n : ℚ) ≤ q)
    (h2 : q < (n : ℚ) + 1) : toByte q = n := by
  have h0 : (0 : ℚ) ≤ q := le_trans (by positivity) h1
  have hn2 : ((n : ℚ) + 1) ≤ 256 := by
    have : (n : ℚ) + 1 = ((n + 1 : Nat) : ℚ) := by push_cast; ring
    rw [this]
    exact_mod_cast hn
  rw [toByte_of_range q h0 (by linarith)]
  have hf : ⌊q⌋ = (n : Int) := by
    rw [Int.floor_eq_iff]
    exact ⟨by exact_mod_cast h1, by exact_mod_cast h2⟩
  rw [hf]
  rfl

theorem toByte_clamp255_of_floor (q : ℚ) (n : Nat) (hn : n < 255) (h1 : (n : ℚ) ≤ q)
    (h2 : q < (n : ℚ) + 1) : toByte (clamp255 q) = n := by
  have h0 : (0 : ℚ) ≤ q := le_trans (by positivity) h1
  have hn2 : ((n : ℚ) + 1) ≤ 255 := by
    have : (n : ℚ) + 1 = ((n + 1 : Nat) : ℚ) := by push_cast; ring
    rw [this]
    exact_mod_cast hn
  have hc : clamp255 q = q := by
    unfold clamp255
    simp only
    rw [if_neg (not_lt.2 h0), if_neg (by linarith)]
  rw [hc]
  exact toByte_of_floor q n (by omega) h1 h2

theorem whiteBalanceTemp_zero : whiteBalanceTemp 0 = 10 := by
  unfold whiteBalanceTemp
  rw [clampInput_of_range 0 (by decide) (by decide)]
  norm_num

theorem whiteBalanceTemp_max : whiteBalanceTemp 1023 = 80 := by
  unfold whiteBalanceTemp
  rw [clampInput_of_range 1023 (by decide) (by decide)]
  norm_num

/-- The colour at input 0 for a `log` whose value at 10 is within 1/2000 of
the natural logarithm of 10. -/
theorem whiteBalance_zero_eq (lm : LibM)
    (hl : |((lm.log 10 : ℚ) : ℝ) - Real.log 10| ≤ 1 / 2000) :
    whiteBalance lm 0 = { r := 255, g := 67, b := 0 } := by
  have hb := log_ten_bounds
  rw [abs_le] at hl
  have h1 : (2.30199 : ℚ) < lm.log 10 := by
    have : (((2.30199 : ℚ) : ℝ)) < ((lm.log 10 : ℚ) : ℝ) := by
      push_cast; linarith [hl.1, hb.1]
    exact_mod_cast this
  have h2 : lm.log 10 < (2.30318 : ℚ) := by
    have : ((lm.log 10 : ℚ) : ℝ) < (((2.30318 : ℚ) : ℝ)) := by
      push_cast; linarith [hl.2, hb.2]
    exact_mod_cast this
  rw [whiteBalance_eq_temp, whiteBalanceTemp_zero]
  rw [if_pos (by norm_num), if_pos (by norm_num), if_neg (by norm_num), if_pos (by norm_num)]
  have er : toByte 255 = 255 := toByte_natCast 255 (by decide)
  have eb : toByte 0 = 0 := toByte_natCast 0 (by decide)
  have eg : toByte (clamp255 (99.4708025861 * lm.log 10 - 161.1195681661)) = 67 :=
    toByte_clamp255_of_floor _ 67 (by decide) (by push_cast; linarith) (by push_cast; linarith)
  rw [er, eb, eg]

theorem refLibM_log_ten_close : |((refLibM.log 10 : ℚ) : ℝ) - Real.log 10| ≤ 1 / 2000 := by
  have hb := log_ten_bounds
  have e : refLibM.log 10 = 2.302585 := by simp [refLibM]
  rw [e, abs_le]
  push_cast
  constructor <;> linarith [hb.1, hb.2]

/-- C11 (amended): `whiteBalance(0)` is the 1000 K output (`temp = 10`); for a
`log` whose value at 10 is within 1/2000 of the natural logarithm of 10 it
equals R = 255, G = 67 (the green formula gives about 67.9, inside [0,255], so
the clamp does not act and the cast truncates), B = 0 (because
`temp = 10 <= 19`). -/
theorem whiteBalance_at_1000K (lm : LibM)
    (hl : |((lm.log 10 : ℚ) : ℝ) - Real.log 10| ≤ 1 / 2000) :
    whiteBalanceTemp 0 = 10 ∧ whiteBalance lm 0 = { r := 255, g := 67, b := 0 } :=
  ⟨whiteBalanceTemp_zero, whiteBalance_zero_eq lm hl⟩

theorem whiteBalance_at_1000K_witness :
    |((refLibM.log 10 : ℚ) : ℝ) - Real.log 10| ≤ 1 / 2000 ∧
      whiteBalanceTemp 0 = 10 ∧ whiteBalance refLibM 0 = { r := 255, g := 67, b := 0 } :=
  ⟨refLibM_log_ten_close, whiteBalance_at_1000K refLibM refLibM_log_ten_close⟩

/-- C11 as stated fails: with a `log` that returns 2.302585 at 10, within
1/2000 of the natural logarithm of 10, the green channel of `whiteBalance(0)`
is 67, not 0. -/
theorem whiteBalance_zero_green_not_zero :
    refLibM.log 10 = 2.302585 ∧ |((refLibM.log 10 : ℚ) : ℝ) - Real.log 10| ≤ 1 / 2000 ∧
      (whiteBalance refLibM 0).g = 67 ∧ (whiteBalance refLibM 0).g ≠ 0 := by
  have h := whiteBalance_zero_eq refLibM refLibM_log_ten_close
  refine ⟨by simp [refLibM], refLibM_log_ten_close, by rw [h], ?_⟩
  rw [h]
  decide

/-- The colour at input 1023 for a `pow` whose values at base 20 and the two
exponents of the red and green formulas are within 1/2000 of the real powers. -/
theorem whiteBalance_max_eq (lm : LibM)
    (hr : |((lm.pow 20 (-0.1332047592) : ℚ) : ℝ) - (20 : ℝ) ^ (-0.1332047592 : ℝ)| ≤ 1 / 2000)
    (hg : |((lm.pow 20 (-0.0755148492) : ℚ) : ℝ) - (20 : ℝ) ^ (-0.0755148492 : ℝ)| ≤ 1 / 2000) :
    whiteBalance lm 1023 = { r := 221, g := 229, b := 255 } := by
  have hbr := rpow_red_bounds
  have hbg := rpow_green_bounds
  rw [abs_le] at hr hg
  have r1 : (0.6704 : ℚ) < lm.pow 20 (-0.1332047592) := by
    have : (((0.6704 : ℚ) : ℝ)) < ((lm.pow 20 (-0.1332047592) : ℚ) : ℝ) := by
      push_cast; linarith [hr.1, hbr.1]
    exact_mod_cast this
  have r2 : lm.pow 20 (-0.1332047592) < (0.6717 : ℚ) := by
    have : ((lm.pow 20 (-0.1332047592) : ℚ) : ℝ) < (((0.6717 : ℚ) : ℝ)) := by
      push_cast; linarith [hr.2, hbr.2]
    exact_mod_cast this
  have g1 : (0.7970 : ℚ) < lm.pow 20 (-0.0755148492) := by
    have : (((0.7970 : ℚ) : ℝ)) < ((lm.pow 20 (-0.0755148492) : ℚ) : ℝ) := by
      push_cast; linarith [hg.1, hbg.1]
    exact_mod_cast this
  have g2 : lm.pow 20 (-0.0755148492) < (0.7981 : ℚ) := by
    have : ((lm.pow 20 (-0.0755148492) : ℚ) : ℝ) < (((0.7981 : ℚ) : ℝ)) := by
      push_cast; linarith [hg.2, hbg.2]
    exact_mod_cast this
  have e20 : (80 : ℚ) - 60 = 20 := by norm_num
  rw [whiteBalance_eq_temp, whiteBalanceTemp_max, e20]
  rw [if_neg (by norm_num), if_neg (by norm_num), if_pos (by norm_num)]
  have eb : toByte 255 = 255 := toByte_natCast 255 (by decide)
  have er : toByte (clamp255 (329.698727446 * lm.pow 20 (-0.1332047592))) = 221 :=
    toByte_clamp255_of_floor _ 221 (by decide) (by push_cast; linarith) (by push_cast; linarith)
  have eg : toByte (clamp255 (288.1221695283 * lm.pow 20 (-0.0755148492))) = 229 :=
    toByte_clamp255_of_floor _ 229 (by decide) (by push_cast; linarith) (by push_cast; linarith)
  rw [er, eb, eg]

theorem refLibM_pow_close :
    |((refLibM.pow 20 (-0.1332047592) : ℚ) : ℝ) - (20 : ℝ) ^ (-0.1332047592 : ℝ)| ≤ 1 / 2000 ∧
      |((refLibM.pow 20 (-0.0755148492) : ℚ) : ℝ) - (20 : ℝ) ^ (-0.0755148492 : ℝ)| ≤
        1 / 2000 := by
  have hbr := rpow_red_bounds
  have hbg := rpow_green_bounds
  have e1 : refLibM.pow 20 (-0.1332047592) = 0.670960 := by norm_num [refLibM]
  have e2 : refLibM.pow 20 (-0.0755148492) = 0.797541 := by norm_num [refLibM]
  rw [e1, e2, abs_le, abs_le]
  push_cast
  refine ⟨⟨?_, ?_⟩, ⟨?_, ?_⟩⟩ <;> linarith [hbr.1, hbr.2, hbg.1, hbg.2]

/-- C12 (amended): `whiteBalance(1023)` is the 8000 K output (`temp = 80`). For
a `pow` whose values at base 20 are within 1/2000 of the real powers, its blue
channel is 255, its red channel is 221, the truncated value of
`329.698727446 * (temp-60)^(-0.1332047592)` at `temp = 80`, below 255, and its
green channel is 229, the truncated value of
`288.1221695283 * (temp-60)^(-0.0755148492)` at `temp = 80`, which is also
below 255, so the green clamp does not act. -/
theorem whiteBalance_at_8000K (lm : LibM)
    (hr : |((lm.pow 20 (-0.1332047592) : ℚ) : ℝ) - (20 : ℝ) ^ (-0.1332047592 : ℝ)| ≤ 1 / 2000)
    (hg : |((lm.pow 20 (-0.0755148492) : ℚ) : ℝ) - (20 : ℝ) ^ (-0.0755148492 : ℝ)| ≤ 1 / 2000) :
    whiteBalanceTemp 1023 = 80 ∧ whiteBalance lm 1023 = { r := 221, g := 229, b := 255 } ∧
      (221 : ℚ) ≤ 329.698727446 * lm.pow (whiteBalanceTemp 1023 - 60) (-0.1332047592) ∧
      329.698727446 * lm.pow (whiteBalanceTemp 1023 - 60) (-0.1332047592) < 222 ∧
      (229 : ℚ) ≤ 288.1221695283 * lm.pow (whiteBalanceTemp 1023 - 60) (-0.0755148492) ∧
      288.1221695283 * lm.pow (whiteBalanceTemp 1023 - 60) (-0.0755148492) < 230 := by
  have hbr := rpow_red_bounds
  have hbg := rpow_green_bounds
  refine ⟨whiteBalanceTemp_max, whiteBalance_max_eq lm hr hg, ?_⟩
  rw [abs_le] at hr hg
  have e20 : whiteBalanceTemp 1023 - 60 = 20 := by rw [whiteBalanceTemp_max]; norm_num
  rw [e20]
  have r1 : (0.6704 : ℚ) < lm.pow 20 (-0.1332047592) := by
    have : (((0.6704 : ℚ) : ℝ)) < ((lm.pow 20 (-0.1332047592) : ℚ) : ℝ) := by
      push_cast; linarith [hr.1, hbr.1]
    exact_mod_cast this
  have r2 : lm.pow 20 (-0.1332047592) < (0.6717 : ℚ) := by
    have : ((lm.pow 20 (-0.1332047592) : ℚ) : ℝ) < (((0.6717 : ℚ) : ℝ)) := by
      push_cast; linarith [hr.2, hbr.2]
    exact_mod_cast this
  have g1 : (0.7970 : ℚ) < lm.pow 20 (-0.0755148492) := by
    have : (((0.7970 : ℚ) : ℝ)) < ((lm.pow 20 (-0.0755148492) : ℚ) : ℝ) := by
      push_cast; linarith [hg.1, hbg.1]
    exact_mod_cast this
  have g2 : lm.pow 20 (-0.0755148492) < (0.7981 : ℚ) := by
    have : ((lm.pow 20 (-0.0755148492) : ℚ) : ℝ) < (((0.7981 : ℚ) : ℝ)) := by
      push_cast; linarith [hg.2, hbg.2]
    exact_mod_cast this
  refine ⟨?_, ?_, ?_, ?_⟩ <;> linarith

theorem whiteBalance_at_8000K_witness :
    (|((refLibM.pow 20 (-0.1332047592) : ℚ) : ℝ) - (20 : ℝ) ^ (-0.1332047592 : ℝ)| ≤ 1 / 2000 ∧
      |((refLibM.pow 20 (-0.0755148492) : ℚ) : ℝ) - (20 : ℝ) ^ (-0.0755148492 : ℝ)| ≤
        1 / 2000) ∧
      whiteBalance refLibM 1023 = { r := 221, g := 229, b := 255 } :=
  ⟨refLibM_pow_close,
    (whiteBalance_at_8000K refLibM refLibM_pow_close.1 refLibM_pow_close.2).2.1⟩

/-- C12 as stated fails: with a `pow` that returns 0.797541 for
`20^(-0.0755148492)`, within 1/2000 of the real power, the green formula at
`temp = 80` gives about 229.8 and the green channel of `whiteBalance(1023)` is
229, not the upper limit 255. -/
theorem whiteBalance_max_green_not_clamped :
    refLibM.pow 20 (-0.0755148492) = 0.797541 ∧
      |((refLibM.pow 20 (-0.0755148492) : ℚ) : ℝ) - (20 : ℝ) ^ (-0.0755148492 : ℝ)| ≤
        1 / 2000 ∧
      (whiteBalance refLibM 1023).g = 229 ∧ (whiteBalance refLibM 1023).g ≠ 255 := by
  have h := whiteBalance_max_eq refLibM refLibM_pow_close.1 refLibM_pow_close.2
  refine ⟨by norm_num [refLibM], refLibM_pow_close.2, by rw [h], ?_⟩
  rw [h]
  decide
end DeskColorBar
